import Mathlib

/-!
# gopenai: the shared request/response core

A shallow embedding of `client.go`, `errors.go`, `utils.go` and `gopenai.go`, and of the
operations of `files.go` and `images.go` that send a multipart form.

The Go standard library and `mapstructure` are not part of the repository.  What the
embedded functions need from them is either modelled here (header canonicalisation,
`fmt` verbs `%s`/`%v`, `io.ReadAll`, `io.Copy`, `encoding/json`'s storing of a JSON
value into the anonymous `errResp` struct, `path.Base`, the part structure written by
`mime/multipart`) or taken as a parameter (`Lib`, `OS`, `Codec`, the `httpClient` of a
`client`).
Go strings are rendered as Lean strings, byte slices as lists of bytes, a `nil` slice,
pointer or error as `none`.
-/

set_option autoImplicit false
set_option maxRecDepth 8000

namespace Gopenai

/-! ## Errors -/

/-- An error value created outside the package (transport, `encoding/json`, `io`, `os`).
`netTimeout = some t` says that the dynamic type implements `net.Error` and that its
`Timeout()` method answers `t`. -/
structure LibError where
  text : String
  netTimeout : Option Bool := none
deriving DecidableEq, Repr

/-- The error values that the functions of the package can return, told apart by where
the value was created.  `ErrRequestTimeout` is the package-level variable of `errors.go`,
`errorsNew` a value made by `errors.New` in `getRequestResponse`, `fmtErrorf` a value made
by `fmt.Errorf` in `streamRequestResponse`, `lib` an error passed on from a library. -/
inductive GoError where
  | ErrRequestTimeout
  | errorsNew (msg : String)
  | fmtErrorf (msg : String)
  | lib (e : LibError)
deriving DecidableEq, Repr

/-- The `Error()` text of an error value. -/
def GoError.Error : GoError → String
  | .ErrRequestTimeout => "request timeout"
  | .errorsNew msg => msg
  | .fmtErrorf msg => msg
  | .lib e => e.text

/-! ## Bytes, readers and writers -/

abbrev Bytes := List UInt8

/-- The bytes of a string. -/
def utf8 (s : String) : Bytes := s.data.flatMap String.utf8EncodeChar

/-- An `io.Reader` that is read to its end: the chunks handed out by successive `Read`
calls, and how the stream ends (`none` is `io.EOF`, `some e` a read failure). -/
structure Reader where
  chunks : List Bytes
  fail : Option LibError := none
deriving DecidableEq, Repr

/-- All bytes a reader hands out before it ends. -/
def Reader.bytes (r : Reader) : Bytes := r.chunks.flatten

/-- The `io.ReadAll` function: the data read so far together with the error, where
`io.EOF` counts as no error.  The slice returned is never `nil`. -/
def ioReadAll (r : Reader) : Option Bytes × Option LibError :=
  (some r.bytes, r.fail)

/-- An `io.Writer` destination.  `limit = none` accepts every write; `limit = some (n, e)`
accepts `n` more bytes and answers a write going beyond them with the error `e`, after
taking the bytes that still fit. -/
structure Sink where
  received : Bytes
  limit : Option (Nat × LibError) := none
deriving DecidableEq, Repr

/-- A single `Write` call on a sink. -/
def Sink.Write (s : Sink) (p : Bytes) : Sink × Option LibError :=
  match s.limit with
  | none => ({ s with received := s.received ++ p }, none)
  | some (n, e) =>
    if p.length ≤ n then
      ({ received := s.received ++ p, limit := some (n - p.length, e) }, none)
    else
      ({ received := s.received ++ p.take n, limit := some (0, e) }, some e)

/-- Whether the sink has room for `k` more bytes, so that writing them succeeds. -/
def Sink.accepts (s : Sink) (k : Nat) : Prop :=
  match s.limit with
  | none => True
  | some (n, _) => k ≤ n

/-- The loop of `io.Copy(dst, src)`: every chunk read is written to the destination, a
failed write ends the copy with its error, and a read failure is reported after the
bytes that came with it were written. -/
def ioCopyChunks : Sink → List Bytes → Option LibError → Sink × Option LibError
  | s, [], fail => (s, fail)
  | s, c :: cs, fail =>
    match s.Write c with
    | (s1, none) => ioCopyChunks s1 cs fail
    | (s1, some e) => (s1, some e)

/-- The `io.Copy` function; the byte count is left out, the callers discard it. -/
def ioCopy (dst : Sink) (src : Reader) : Sink × Option LibError :=
  ioCopyChunks dst src.chunks src.fail

/-! ## fmt -/

/-- The verbs `%s` and `%v` of `fmt.Sprintf` over operands that are already rendered as
text: each verb is replaced by the next operand, a verb without operand by the
`%!verb(MISSING)` marker. -/
def sprintfChars : List Char → List String → List Char
  | [], _ => []
  | [c], _ => [c]
  | c :: d :: rest, args =>
    if c = '%' then
      match args with
      | a :: more => a.data ++ sprintfChars rest more
      | [] => '%' :: '!' :: d :: ("(MISSING)".data ++ sprintfChars rest [])
    else c :: sprintfChars (d :: rest) args

/-- The `fmt.Sprintf` function for formats using only `%s` and `%v`. -/
def Sprintf (format : String) (args : List String) : String :=
  String.mk (sprintfChars format.data args)

/-! ## encoding/json: values, and storing them into Go values -/

/-- A JSON value as the decoder scans it; a number keeps its literal text. -/
inductive JSON where
  | null
  | bool (b : Bool)
  | num (lit : String)
  | str (s : String)
  | arr (items : List JSON)
  | obj (fields : List (String × JSON))

/-- A `float64`, given by its bit pattern. -/
structure Float64 where
  bits : Nat
deriving DecidableEq, Repr

/-- The dynamic values an `interface{}` holds after `encoding/json` stored into it.  The
entries of a `map` are kept sorted by key, one entry per key. -/
inductive GoAny where
  | nil
  | bool (b : Bool)
  | float64 (f : Float64)
  | string (s : String)
  | slice (items : List GoAny)
  | map (entries : List (String × GoAny))

/-- The error value `io.EOF`. -/
def ioEOF : LibError := { text := "EOF" }

/-- Library behaviour taken as given: whether `http.NewRequest` rejects a method and URL,
the first JSON value that `json.Decoder` scans from a reader (or the read or syntax
error it stops with), `strconv.ParseFloat` on a number literal, and the `%v` text of a
`float64`. -/
structure Lib where
  newRequestErr : String → String → Option LibError
  readJSON : Reader → Except LibError JSON
  parseFloat : String → Option Float64
  formatFloat : Float64 → String
  /-- A body that ends before any byte was read makes `Decode` answer `io.EOF`. -/
  readJSON_empty : ∀ r : Reader, r.bytes = [] → r.fail = none → readJSON r = .error ioEOF
  /-- The value read is complete at the closing brace of a top-level object: `Decode` does not
  look at what the stream holds after it. -/
  readJSON_object : ∀ (r r1 : Reader) (fields : List (String × JSON)),
    readJSON r = .ok (.obj fields) → r.bytes <+: r1.bytes → readJSON r1 = .ok (.obj fields)

/-- The `*json.UnmarshalTypeError` for a JSON value of kind `value` met where the Go type
`goType` cannot hold it.  Only that such an error is returned is modelled: its text here
is a sketch, without the struct field path and the full type name that the library
prints. -/
def unmarshalTypeError (value goType : String) : LibError :=
  { text := "json: cannot unmarshal " ++ value ++ " into Go value of type " ++ goType }

/-- Byte-wise order of Go strings. -/
def strLt : List Char → List Char → Bool
  | _, [] => false
  | [], _ :: _ => true
  | a :: as, b :: bs => a.val < b.val || (a == b && strLt as bs)

/-- The assignment `m[k] = v` on a Go map held as a key-sorted list. -/
def mapAssign (k : String) (v : GoAny) : List (String × GoAny) → List (String × GoAny)
  | [] => [(k, v)]
  | (k1, v1) :: rest =>
    if k = k1 then (k, v) :: rest
    else if strLt k.data k1.data then (k, v) :: (k1, v1) :: rest
    else (k1, v1) :: mapAssign k v rest

/-- The first of two saved errors: `saveError` keeps the earliest one. -/
def firstErr (a b : Option LibError) : Option LibError :=
  match a with
  | some e => some e
  | none => b

mutual
/-- The value `encoding/json` stores into an empty `interface{}`, with the first error it
saved on the way. -/
def valueInterface (lib : Lib) : JSON → GoAny × Option LibError
  | .null => (.nil, none)
  | .bool b => (.bool b, none)
  | .str s => (.string s, none)
  | .num lit =>
    match lib.parseFloat lit with
    | some f => (.float64 f, none)
    | none => (.nil, some (unmarshalTypeError ("number " ++ lit) "float64"))
  | .arr items =>
    let r := arrayInterface lib items
    (.slice r.1, r.2)
  | .obj fields =>
    let r := objectInterface lib fields
    (.map (r.1.foldl (fun m kv => mapAssign kv.1 kv.2 m) []), r.2)
/-- Elements of a JSON array, in order. -/
def arrayInterface (lib : Lib) : List JSON → List GoAny × Option LibError
  | [] => ([], none)
  | x :: xs =>
    let a := valueInterface lib x
    let b := arrayInterface lib xs
    (a.1 :: b.1, firstErr a.2 b.2)
/-- Members of a JSON object, in document order. -/
def objectInterface (lib : Lib) : List (String × JSON) → List (String × GoAny) × Option LibError
  | [] => ([], none)
  | (k, x) :: xs =>
    let a := valueInterface lib x
    let b := objectInterface lib xs
    ((k, a.1) :: b.1, firstErr a.2 b.2)
end

mutual
/-- The `%v` text of a value held in an `interface{}`. -/
def formatAny (lib : Lib) : GoAny → String
  | .nil => "<nil>"
  | .bool b => if b then "true" else "false"
  | .float64 f => lib.formatFloat f
  | .string s => s
  | .slice items => "[" ++ " ".intercalate (formatItems lib items) ++ "]"
  | .map entries => "map[" ++ " ".intercalate (formatEntries lib entries) ++ "]"
/-- The `%v` texts of the elements of a slice. -/
def formatItems (lib : Lib) : List GoAny → List String
  | [] => []
  | x :: xs => formatAny lib x :: formatItems lib xs
/-- The `key:value` texts of the entries of a map. -/
def formatEntries (lib : Lib) : List (String × GoAny) → List String
  | [] => []
  | (k, x) :: xs => (k ++ ":" ++ formatAny lib x) :: formatEntries lib xs
end

/-- The inner struct of `errResp` in `getRequestResponse`. -/
structure ErrorFields where
  Message : String := ""
  Type_ : String := ""
  Param : GoAny := .nil
  Code : String := ""

/-- The anonymous struct `errResp` declared in `getRequestResponse`. -/
structure ErrResp where
  Error : ErrorFields := {}

/-- The name of a JSON value's kind in an `UnmarshalTypeError`. -/
def JSON.kind : JSON → String
  | .null => "null"
  | .bool _ => "bool"
  | .num _ => "number"
  | .str _ => "string"
  | .arr _ => "array"
  | .obj _ => "object"

/-- Storing a JSON value into a Go `string`: a JSON string is taken, `null` leaves the
field as it is, any other kind is a type error and leaves the field as it is. -/
def storeString (cur : String) : JSON → String × Option LibError
  | .str s => (s, none)
  | .null => (cur, none)
  | j => (cur, some (unmarshalTypeError j.kind "string"))

/-- Case folding of a rune of a key, as far as it can meet the ASCII tags of the package:
an ASCII letter folds to its lower case, and so do the two other runes that Unicode
simple folding puts with an ASCII letter, the long s (U+017F) with `s` and the Kelvin
sign (U+212A) with `k`. -/
def foldRune (c : Char) : Char :=
  if c = Char.ofNat 0x17F then 's'
  else if c = Char.ofNat 0x212A then 'k'
  else c.toLower

/-- The struct field a JSON key selects: the field whose `json` tag equals the key, else
the first whose tag equals it under case folding. -/
def lookupField (tags : List String) (key : String) : Option String :=
  match tags.find? (fun t => t == key) with
  | some t => some t
  | none => tags.find? (fun t => t.data.map foldRune == key.data.map foldRune)

/-- The `json` tags of the inner struct, in declaration order. -/
def errorFieldTags : List String := ["message", "type", "param", "code"]

/-- One member of the inner object stored into the inner struct. -/
def storeErrorField (lib : Lib) (acc : ErrorFields × Option LibError) (kv : String × JSON) :
    ErrorFields × Option LibError :=
  match lookupField errorFieldTags kv.1 with
  | some "message" =>
    let r := storeString acc.1.Message kv.2
    ({ acc.1 with Message := r.1 }, firstErr acc.2 r.2)
  | some "type" =>
    let r := storeString acc.1.Type_ kv.2
    ({ acc.1 with Type_ := r.1 }, firstErr acc.2 r.2)
  | some "code" =>
    let r := storeString acc.1.Code kv.2
    ({ acc.1 with Code := r.1 }, firstErr acc.2 r.2)
  | some "param" =>
    let r := valueInterface lib kv.2
    ({ acc.1 with Param := r.1 }, firstErr acc.2 r.2)
  | _ => acc

/-- Storing a JSON value into the inner struct: an object is stored member by member,
`null` changes nothing, any other kind is a type error. -/
def storeErrorFields (lib : Lib) (cur : ErrorFields) : JSON → ErrorFields × Option LibError
  | .obj fields => fields.foldl (storeErrorField lib) (cur, none)
  | .null => (cur, none)
  | j => (cur, some (unmarshalTypeError j.kind "struct"))

/-- One member of the outer object stored into `errResp`. -/
def storeErrRespField (lib : Lib) (acc : ErrResp × Option LibError) (kv : String × JSON) :
    ErrResp × Option LibError :=
  match lookupField ["error"] kv.1 with
  | some _ =>
    let r := storeErrorFields lib acc.1.Error kv.2
    ({ Error := r.1 }, firstErr acc.2 r.2)
  | none => acc

/-- Storing a JSON value into a zero `errResp`. -/
def unmarshalErrResp (lib : Lib) : JSON → ErrResp × Option LibError
  | .obj fields => fields.foldl (storeErrRespField lib) ({}, none)
  | .null => ({}, none)
  | j => ({}, some (unmarshalTypeError j.kind "struct"))

/-- The call `json.NewDecoder(body).Decode(&errResp)`: scan one JSON value from the body,
store it, and report the scan error or the first error saved while storing. -/
def decodeErrResp (lib : Lib) (body : Reader) : Except LibError ErrResp :=
  match lib.readJSON body with
  | .error e => .error e
  | .ok j =>
    match unmarshalErrResp lib j with
    | (_, some e) => .error e
    | (v, none) => .ok v

/-! ## mime/multipart: the form written into the buffer -/

/-- One part of a multipart form, as a multipart reader hands it back: the `name` and
`filename` parameters of its `Content-Disposition` header, its `Content-Type` header and
its content. -/
structure Part where
  FormName : String
  FileName : Option String
  ContentType : Option String
  Content : Bytes
deriving DecidableEq, Repr

/-- The `bytes.Buffer` filled through a `multipart.Writer`: the boundary the parts are
framed with, the parts in the order they were created (the last one is the part being
written), and whether the closing boundary line has been written. -/
structure Buffer where
  boundary : String
  parts : List Part := []
  closed : Bool := false
deriving DecidableEq, Repr

/-- The call `multipart.NewWriter(data)` on an empty buffer, with the boundary drawn. -/
def multipartNewWriter (boundary : String) : Buffer :=
  { boundary := boundary }

/-- The method `CreateFormFile` of the writer: a new part with `name` and `filename`
parameters and content type `application/octet-stream`. -/
def Buffer.CreateFormFile (w : Buffer) (fieldname filename : String) : Buffer :=
  { w with parts := w.parts ++
      [{ FormName := fieldname, FileName := some filename,
         ContentType := some "application/octet-stream", Content := [] }] }

/-- Appending to the content of the part being written. -/
def Buffer.writePart (w : Buffer) (p : Bytes) : Buffer :=
  match w.parts.reverse with
  | [] => w
  | last :: before =>
    { w with parts := before.reverse ++ [{ last with Content := last.Content ++ p }] }

/-- The call `io.Copy(part, file)`: writing into the buffer does not fail, so all chunks
of the file reach the part and only a read failure is reported. -/
def Buffer.copyFrom (w : Buffer) (file : Reader) : Buffer × Option LibError :=
  (w.writePart file.bytes, file.fail)

/-- The method `WriteField` of the writer: a new part with only a `name` parameter, whose
content is the bytes of the value. -/
def Buffer.WriteField (w : Buffer) (fieldname value : String) : Buffer :=
  { w with parts := w.parts ++
      [{ FormName := fieldname, FileName := none, ContentType := none,
         Content := utf8 value }] }

/-- The method `Close` of the writer. -/
def Buffer.Close (w : Buffer) : Buffer :=
  { w with closed := true }

/-- The method `FormDataContentType` of the writer; a boundary holding one of the
characters `()<>@,;:\"/[]?= ` is quoted. -/
def Buffer.FormDataContentType (w : Buffer) : String :=
  if w.boundary.data.any (fun c => "()<>@,;:\\\"/[]?= ".data.contains c) then
    "multipart/form-data; boundary=\"" ++ w.boundary ++ "\""
  else "multipart/form-data; boundary=" ++ w.boundary

/-! ## net/http: headers, requests, responses -/

/-- A `http.Header`: for each canonical key the values added, in order. -/
abbrev Header := List (String × List String)

/-- The bytes allowed in a header field name. -/
def validHeaderFieldByte (c : Char) : Bool :=
  c.isAlphanum || "!#$%&*+-.^_|~".data.contains c || c = Char.ofNat 39 || c = Char.ofNat 96

/-- Upper case after the start and after each dash, lower case elsewhere. -/
def canonicalChars : Bool → List Char → List Char
  | _, [] => []
  | upper, c :: cs =>
    (if upper then c.toUpper else c.toLower) :: canonicalChars (c = '-') cs

/-- The function `textproto.CanonicalMIMEHeaderKey`: a key holding a byte that is not
allowed in a field name is left as it is. -/
def CanonicalMIMEHeaderKey (s : String) : String :=
  if s.data.all validHeaderFieldByte then String.mk (canonicalChars true s.data) else s

/-- Appending a value under a canonical key. -/
def headerAppend (key value : String) : Header → Header
  | [] => [(key, [value])]
  | (k, vs) :: rest =>
    if k = key then (k, vs ++ [value]) :: rest else (k, vs) :: headerAppend key value rest

/-- The method `Header.Add`. -/
def Header.Add (h : Header) (key value : String) : Header :=
  headerAppend (CanonicalMIMEHeaderKey key) value h

/-- The method `Header.Values`: all values under the key, `[]` when there is none. -/
def Header.Values (h : Header) (key : String) : List String :=
  match h.find? (fun kv => kv.1 == CanonicalMIMEHeaderKey key) with
  | some kv => kv.2
  | none => []

/-- The method `Header.Get`: the first value under the key, `""` when there is none. -/
def Header.Get (h : Header) (key : String) : String :=
  (Header.Values h key).headD ""

/-- The `io.Reader` given as request body: none, a byte reader, or a multipart buffer. -/
inductive ReqBody where
  | nil
  | bytes (b : Bytes)
  | form (buf : Buffer)
deriving DecidableEq, Repr

/-- The fields of a `http.Request` that the package sets. -/
structure Request where
  Method : String
  URL : String
  Body : ReqBody
  Header : Header
deriving DecidableEq, Repr

/-- The fields of a `http.Response` that the package reads. -/
structure Response where
  StatusCode : Int
  Status : String
  Body : Reader
deriving DecidableEq, Repr

/-- What a call does to the outside, in order: a request handed to `httpClient.Do`, the
closing of a response body, the opening and closing of a file. -/
inductive Event where
  | Do (req : Request)
  | BodyClose
  | FileOpen (path : String)
  | FileClose (path : String)
deriving DecidableEq, Repr

/-- The outcome of a call: what it returns and what it did. -/
structure Call (α : Type) where
  ret : α
  trace : List Event

/-! ## gopenai.go, errors.go, client.go -/

/-- The struct `Config`; the timeout is a `time.Duration` in nanoseconds. -/
structure Config where
  APIKey : String
  OrganizationID : String
  RequestTimeout : Int
deriving DecidableEq, Repr

/-- The struct `client`; its `httpClient` is given by what `Do` answers to a request. -/
structure client where
  cfg : Config
  httpClient : Request → Except LibError Response

def errMsgTpl : String := "Message: %s | Type: %s | Code: %s | Param: %v"
def contentTypeJSON : String := "application/json"
def headerNameContentType : String := "Content-Type"
def headerNameAuthorization : String := "Authorization"
def headerNameOpenAIOrganization : String := "OpenAI-Organization"

/-- The status code `http.StatusOK`. -/
def StatusOK : Int := 200

/-- The function `http.NewRequest`: a request without headers, unless the method or the
URL is rejected; an empty method stands for `GET`. -/
def NewRequest (lib : Lib) (method url : String) (data : ReqBody) : Except LibError Request :=
  match lib.newRequestErr method url with
  | some err => .error err
  | none =>
    .ok { Method := if method = "" then "GET" else method, URL := url, Body := data,
          Header := [] }

/-- The request that `getHTTPResponse` hands to `Do`, built from a fresh request. -/
def addHeaders (cfg : Config) (contentType : String) (req : Request) : Request :=
  let req :=
    if contentType ≠ "" then
      { req with Header := req.Header.Add headerNameContentType contentType }
    else req
  let req :=
    { req with Header := req.Header.Add headerNameAuthorization (Sprintf "Bearer %s" [cfg.APIKey]) }
  if cfg.OrganizationID ≠ "" then
    { req with Header := req.Header.Add headerNameOpenAIOrganization cfg.OrganizationID }
  else req

/-- The method `client.getHTTPResponse`.  `.error e` stands for the return `nil, e` and
`.ok resp` for `resp, nil`. -/
def getHTTPResponse (lib : Lib) (c : client) (url method : String) (data : ReqBody)
    (contentType : String) : Call (Except GoError Response) :=
  match NewRequest lib method url data with
  | .error err => ⟨.error (.lib err), []⟩
  | .ok req0 =>
    let req := addHeaders c.cfg contentType req0
    match c.httpClient req with
    | .error err =>
      if err.netTimeout = some true then ⟨.error .ErrRequestTimeout, [.Do req]⟩
      else ⟨.error (.lib err), [.Do req]⟩
    | .ok resp => ⟨.ok resp, [.Do req]⟩

/-- The method `client.streamRequestResponse`: the error returned and the sink after the
call.  The deferred `resp.Body.Close()` ends the trace of every path that has a response. -/
def streamRequestResponse (lib : Lib) (c : client) (url method : String) (data : ReqBody)
    (contentType : String) (dst : Sink) : Call (Option GoError × Sink) :=
  let r := getHTTPResponse lib c url method data contentType
  match r.ret with
  | .error err => ⟨(some err, dst), r.trace⟩
  | .ok resp =>
    if resp.StatusCode ≠ StatusOK then
      ⟨(some (.fmtErrorf (Sprintf "bad status: %s" [resp.Status])), dst), r.trace ++ [.BodyClose]⟩
    else
      match ioCopy dst resp.Body with
      | (dst1, some err) => ⟨(some (.lib err), dst1), r.trace ++ [.BodyClose]⟩
      | (dst1, none) => ⟨(none, dst1), r.trace ++ [.BodyClose]⟩

/-- The method `client.getRequestResponse`: the byte slice and the error returned. -/
def getRequestResponse (lib : Lib) (c : client) (url method : String) (data : ReqBody)
    (contentType : String) : Call (Option Bytes × Option GoError) :=
  let r := getHTTPResponse lib c url method data contentType
  match r.ret with
  | .error err => ⟨(none, some err), r.trace⟩
  | .ok resp =>
    if resp.StatusCode ≥ 400 then
      match decodeErrResp lib resp.Body with
      | .error err => ⟨(none, some (.lib err)), r.trace ++ [.BodyClose]⟩
      | .ok errResp =>
        let errMsg := Sprintf errMsgTpl [errResp.Error.Message, errResp.Error.Type_,
          errResp.Error.Code, formatAny lib errResp.Error.Param]
        ⟨(none, some (.errorsNew errMsg)), r.trace ++ [.BodyClose]⟩
    else
      let b := ioReadAll resp.Body
      ⟨(b.1, b.2.map .lib), r.trace ++ [.BodyClose]⟩

/-! ## utils.go -/

/-- The field values of the parameter structs: strings (also the named string types
`ImageSize` and `ImageResponseFormat`) and unsigned integers. -/
inductive GoValue where
  | string (s : String)
  | uint (n : Nat)
deriving DecidableEq, Repr

/-- The `%v` text of a field value. -/
def GoValue.format : GoValue → String
  | .string s => s
  | .uint n => toString n

/-- The `isEmptyValue` test of `mapstructure`. -/
def GoValue.isEmptyValue : GoValue → Bool
  | .string s => s.data.length == 0
  | .uint n => n == 0

/-- An exported struct field as reflection shows it: its Go name, the value of the
`mapstructure` key of its tag, and its value. -/
structure StructField where
  Name : String
  Tag : String
  Value : GoValue
deriving DecidableEq, Repr

/-- The struct `testStruct` of `utils_test.go`. -/
def testStruct (File Field : String) : List StructField :=
  [⟨"File", "file,omitempty", .string File⟩, ⟨"Field", "field,omitempty", .string Field⟩]

/-- The struct `FileParams` of `files.go`. -/
def FileParams (File Purpose : String) : List StructField :=
  [⟨"File", "file", .string File⟩, ⟨"Purpose", "purpose", .string Purpose⟩]

/-- The struct `ImageEditParams` of `images.go`. -/
def ImageEditParams (Image Mask Prompt : String) (N : Nat) (Size ResponseFormat User : String) :
    List StructField :=
  [⟨"Image", "image", .string Image⟩, ⟨"Mask", "mask,omitempty", .string Mask⟩,
   ⟨"Prompt", "prompt", .string Prompt⟩, ⟨"N", "n,omitempty", .uint N⟩,
   ⟨"Size", "size,omitempty", .string Size⟩,
   ⟨"ResponseFormat", "response_format,omitempty", .string ResponseFormat⟩,
   ⟨"User", "user,omitempty", .string User⟩]

/-- The struct `ImageVariationParams` of `images.go`. -/
def ImageVariationParams (Image : String) (N : Nat) (Size ResponseFormat User : String) :
    List StructField :=
  [⟨"Image", "image", .string Image⟩, ⟨"N", "n,omitempty", .uint N⟩,
   ⟨"Size", "size,omitempty", .string Size⟩,
   ⟨"ResponseFormat", "response_format,omitempty", .string ResponseFormat⟩,
   ⟨"User", "user,omitempty", .string User⟩]

/-- Whether `sub` occurs in `s`: `strings.Index(s, sub) != -1`. -/
def stringsContains (s sub : List Char) : Bool :=
  s.tails.any (fun t => sub.isPrefixOf t)

/-- The map key `mapstructure` files a struct field under, `none` when it leaves the
field out: the tag up to its first comma names the key (the Go name when that is empty),
the name `-` drops the field, and `omitempty` after the comma drops an empty value. -/
def mapKey (f : StructField) : Option String :=
  let tagValue := f.Tag.data
  if tagValue.contains ',' then
    let name := tagValue.takeWhile (fun c => c != ',')
    let opts := (tagValue.dropWhile (fun c => c != ',')).drop 1
    if name = ['-'] then none
    else if stringsContains opts "omitempty".data && f.Value.isEmptyValue then none
    else if name ≠ [] then some (String.mk name) else some f.Name
  else if tagValue = ['-'] then none
  else if tagValue ≠ [] then some f.Tag else some f.Name

/-- The assignment `m[k] = v` on a `map[string]interface{}` held as a list with one entry
per key. -/
def setMapIndex (k : String) (v : GoValue) : List (String × GoValue) → List (String × GoValue)
  | [] => [(k, v)]
  | (k1, v1) :: rest =>
    if k1 = k then (k, v) :: rest else (k1, v1) :: setMapIndex k v rest

/-- The call `mapstructure.Decode(v, &structMap)` on a struct and an empty map: the fields
are filed in declaration order, a later field replacing an earlier one under the same
key.  Decoding a struct of such fields into a map does not fail. -/
def mapstructureDecode (v : List StructField) : List (String × GoValue) :=
  v.foldl (fun m f =>
    match mapKey f with
    | some k => setMapIndex k f.Value m
    | none => m) []

/-- One step of `mapstructureDecode`: filing one field into the map. -/
def flattenStep (m : List (String × GoValue)) (f : StructField) : List (String × GoValue) :=
  match mapKey f with
  | some k => setMapIndex k f.Value m
  | none => m

/-- The entry a struct field is flattened to, `none` when the field is left out. -/
def fieldEntry (f : StructField) : Option (String × GoValue) :=
  (mapKey f).map (fun k => (k, f.Value))

/-- The part of a `mapstructure` tag before its first comma. -/
def tagName (tag : String) : List Char :=
  tag.data.takeWhile (fun c => c != ',')

/-- The part of a `mapstructure` tag after its first comma. -/
def tagOptions (tag : String) : List Char :=
  (tag.data.dropWhile (fun c => c != ',')).drop 1

/-- Whether a `mapstructure` tag says `omitempty`. -/
def saysOmitempty (tag : String) : Bool :=
  tag.data.contains ',' && stringsContains (tagOptions tag) "omitempty".data

/-- The key a struct field is filed under when it is kept: the name in its tag, its Go
name when the tag names none. -/
def keyName (f : StructField) : String :=
  if tagName f.Tag = [] then f.Name else String.mk (tagName f.Tag)

/-- What the encoder takes from its surroundings: `os.Open` on a path (the file as a
reader, or the error), the boundary that `multipart.NewWriter` draws, and the order in
which `range` visits the entries of a map.  Opening the empty path fails. -/
structure OS where
  Open : String → Except LibError Reader
  randomBoundary : String
  rangeOrder : List (String × GoValue) → List (String × GoValue)
  rangeOrder_perm : ∀ m, (rangeOrder m).Perm m
  Open_empty : ∀ r, Open "" ≠ .ok r

/-- The function `path.Base`. -/
def pathBase (path : String) : String :=
  if path = "" then "."
  else
    let last := ((path.data.reverse.dropWhile (fun c => c == '/')).takeWhile
      (fun c => c != '/')).reverse
    if last = [] then "/" else String.mk last

/-- The test that sends a map entry down the file branch of the loop. -/
def isFileEntry (k strVal : String) : Bool :=
  (k == "image" || k == "mask" || k == "file") && strVal != ""

/-- The `for k, v := range structMap` loop of `structToMultipartFormData` over the
entries in the order visited: the writer after the loop, or the error of the `return`
inside it.  No path of the loop closes a file it opened. -/
def encodeFields (os : OS) :
    List (String × GoValue) → Buffer → List Event → Call (Except GoError Buffer)
  | [], writer, tr => ⟨.ok writer, tr⟩
  | (k, v) :: rest, writer, tr =>
    let strVal := Sprintf "%v" [v.format]
    if isFileEntry k strVal then
      match os.Open strVal with
      | .error err => ⟨.error (.lib err), tr⟩
      | .ok file =>
        let part := writer.CreateFormFile k (pathBase strVal)
        match part.copyFrom file with
        | (_, some err) => ⟨.error (.lib err), tr ++ [.FileOpen strVal]⟩
        | (writer1, none) => encodeFields os rest writer1 (tr ++ [.FileOpen strVal])
    else encodeFields os rest (writer.WriteField k strVal) tr

/-- The function `structToMultipartFormData`: the buffer, the content type and the error
returned. -/
def structToMultipartFormData (os : OS) (v : List StructField) :
    Call (Option Buffer × String × Option GoError) :=
  let writer := multipartNewWriter os.randomBoundary
  let structMap := mapstructureDecode v
  let r := encodeFields os (os.rangeOrder structMap) writer []
  match r.ret with
  | .error err => ⟨(none, "", some err), r.trace⟩
  | .ok writer1 =>
    let data := writer1.Close
    ⟨(some data, data.FormDataContentType, none), r.trace⟩

/-- The part a map entry is written as, `none` when its file cannot be opened or read. -/
def entryPart (os : OS) (kv : String × GoValue) : Option Part :=
  if isFileEntry kv.1 kv.2.format then
    match os.Open kv.2.format with
    | .ok file =>
      if file.fail = none then
        some { FormName := kv.1, FileName := some (pathBase kv.2.format),
               ContentType := some "application/octet-stream", Content := file.bytes }
      else none
    | .error _ => none
  else
    some { FormName := kv.1, FileName := none, ContentType := none,
           Content := utf8 kv.2.format }

/-- The file handles open after the events of a trace, given those open before it. -/
def openHandles : List Event → List String → List String
  | [], handles => handles
  | .FileOpen p :: rest, handles => openHandles rest (handles ++ [p])
  | .FileClose p :: rest, handles => openHandles rest (handles.erase p)
  | .Do _ :: rest, handles => openHandles rest handles
  | .BodyClose :: rest, handles => openHandles rest handles

/-! ## gopenai.go: New -/

def baseURL : String := "https://api.openai.com/v1"

/-- The constant `defaultRequestTimeout`, `time.Second * 30` in nanoseconds. -/
def defaultRequestTimeout : Int := 1000000000 * 30

/-- The fields of a `http.Client` that the package sets. -/
structure HTTPClient where
  Timeout : Int
deriving DecidableEq, Repr

/-- The function `New`.  `httpDo` is the `Do` method of `http.Client`: what a client with
the given fields answers to a request. -/
def New (httpDo : HTTPClient → Request → Except LibError Response) (cfg : Config) : client :=
  let cfg :=
    if cfg.RequestTimeout = 0 then { cfg with RequestTimeout := defaultRequestTimeout }
    else cfg
  { cfg := cfg, httpClient := httpDo { Timeout := cfg.RequestTimeout } }

/-! ## files.go, images.go: the operations that send a form -/

def filesAPIEndpoint : String := "/files"
def imageEditsAPIEndpoint : String := "/images/edits"
def imageVariationsAPIEndpoint : String := "/images/variations"

/-- The constant `http.MethodPost`. -/
def MethodPost : String := "POST"

/-- The struct `File` of `files.go`. -/
structure File where
  ID : String := ""
  Bytes : Int := 0
  CreatedAt : Int := 0
  Filename : String := ""
  Purpose : String := ""
deriving DecidableEq, Repr

/-- The struct `Image` of `images.go`. -/
structure Image where
  URL : String := ""
  B64JSON : String := ""
deriving DecidableEq, Repr

/-- What `json.Unmarshal` stores from a response body into a zero `File`, and into the
`Data` field of the anonymous response struct of the image operations (`none` is a nil
slice), or the error it returns. -/
structure Codec where
  unmarshalFile : List UInt8 → Except LibError File
  unmarshalImages : List UInt8 → Except LibError (Option (List Image))

/-- The buffer returned by the encoder as the `io.Reader` of the request. -/
def formBody : Option Buffer → ReqBody
  | some buf => .form buf
  | none => .nil

/-- The method `filesAPI.Create` on a client and a `FileParams` value. -/
def filesAPI.Create (lib : Lib) (os : OS) (codec : Codec) (c : client)
    (file purpose : String) : Call (File × Option GoError) :=
  let url := Sprintf "%s%s" [baseURL, filesAPIEndpoint]
  let enc := structToMultipartFormData os (FileParams file purpose)
  match enc.ret with
  | (_, _, some err) => ⟨({}, some err), enc.trace⟩
  | (data, contentType, none) =>
    let r := getRequestResponse lib c url MethodPost (formBody data) contentType
    match r.ret with
    | (_, some err) => ⟨({}, some err), enc.trace ++ r.trace⟩
    | (b, none) =>
      match codec.unmarshalFile (b.getD []) with
      | .error err => ⟨({}, some (.lib err)), enc.trace ++ r.trace⟩
      | .ok response => ⟨(response, none), enc.trace ++ r.trace⟩

/-- The method `imagesAPI.imagesFromFormData`. -/
def imagesAPI.imagesFromFormData (lib : Lib) (os : OS) (codec : Codec) (c : client)
    (url : String) (params : List StructField) : Call (Option (List Image) × Option GoError) :=
  let enc := structToMultipartFormData os params
  match enc.ret with
  | (_, _, some err) => ⟨(none, some err), enc.trace⟩
  | (data, contentType, none) =>
    let r := getRequestResponse lib c url MethodPost (formBody data) contentType
    match r.ret with
    | (_, some err) => ⟨(none, some err), enc.trace ++ r.trace⟩
    | (b, none) =>
      match codec.unmarshalImages (b.getD []) with
      | .error err => ⟨(none, some (.lib err)), enc.trace ++ r.trace⟩
      | .ok response => ⟨(response, none), enc.trace ++ r.trace⟩

/-- The method `imagesAPI.Edit` on a client and an `ImageEditParams` value. -/
def imagesAPI.Edit (lib : Lib) (os : OS) (codec : Codec) (c : client)
    (image mask prompt : String) (n : Nat) (size responseFormat user : String) :
    Call (Option (List Image) × Option GoError) :=
  let url := Sprintf "%s%s" [baseURL, imageEditsAPIEndpoint]
  imagesAPI.imagesFromFormData lib os codec c url
    (ImageEditParams image mask prompt n size responseFormat user)

/-- The method `imagesAPI.CreateVariations` on a client and an `ImageVariationParams`
value. -/
def imagesAPI.CreateVariations (lib : Lib) (os : OS) (codec : Codec) (c : client)
    (image : String) (n : Nat) (size responseFormat user : String) :
    Call (Option (List Image) × Option GoError) :=
  let url := Sprintf "%s%s" [baseURL, imageVariationsAPIEndpoint]
  imagesAPI.imagesFromFormData lib os codec c url
    (ImageVariationParams image n size responseFormat user)

/-! ## Sample values -/

/-- A failure body as the API sends it. -/
def quotaBody : Bytes :=
  utf8 "\x7b\"error\":\x7b\"message\":\"quota\",\"type\":\"billing\",\"code\":\"429\",\"param\":null\x7d\x7d"

/-- The JSON value written in `quotaBody`. -/
def quotaJSON : JSON :=
  .obj [("error", .obj [("message", .str "quota"), ("type", .str "billing"),
    ("code", .str "429"), ("param", .null)])]

/-- A library whose decoder scans the object of `quotaBody` from a body that starts with
it, answers `io.EOF` or the read failure on a body without bytes, and a syntax error on
any other body. -/
def sampleLib : Lib where
  newRequestErr := fun _ _ => none
  readJSON := fun r =>
    if quotaBody.isPrefixOf r.bytes then .ok quotaJSON
    else if r.bytes = [] then
      match r.fail with
      | none => .error ioEOF
      | some e => .error e
    else .error { text := "invalid character" }
  parseFloat := fun _ => none
  formatFloat := fun _ => ""
  readJSON_empty := by
    intro r h1 h2
    have hq : quotaBody.isPrefixOf ([] : Bytes) = false := by decide
    simp [h1, h2, hq]
  readJSON_object := by
    intro r r1 fields h hp
    by_cases hq : quotaBody.isPrefixOf r.bytes = true
    · have hq1 : quotaBody.isPrefixOf r1.bytes = true :=
        List.isPrefixOf_iff_prefix.mpr ((List.isPrefixOf_iff_prefix.mp hq).trans hp)
      simp only [hq, if_true] at h
      simp only [hq1, if_true]
      exact h
    · exfalso
      have hq0 : quotaBody.isPrefixOf r.bytes = false := Bool.eq_false_iff.mpr hq
      simp only [hq0] at h
      by_cases hb : r.bytes = []
      · cases hf : r.fail <;> simp [hb, hf] at h
      · simp [hb] at h

/-- A configuration with an organization. -/
def sampleConfig : Config :=
  { APIKey := "sk-test", OrganizationID := "org-1", RequestTimeout := 0 }

/-- A client whose transport answers every request with the given outcome. -/
def answering (cfg : Config) (out : Except LibError Response) : client :=
  { cfg := cfg, httpClient := fun _ => out }

/-- The path of the fixture of `utils_test.go`. -/
def fixturePath : String := "./.fixture/test-file.jsonl"

/-- The line held by the fixture. -/
def fixtureBytes : Bytes :=
  utf8 "\x7b\"prompt\": \"this is a prompt\", \"completion\": \"this is a completion\"\x7d"

/-- Surroundings in which only the fixture exists, the boundary is fixed and `range`
visits the entries in the order they were stored. -/
def sampleOS : OS where
  Open := fun path =>
    if path = fixturePath then .ok { chunks := [fixtureBytes] }
    else .error { text := "open " ++ path ++ ": no such file or directory" }
  randomBoundary := "5f2d9c"
  rangeOrder := fun m => m
  rangeOrder_perm := fun m => List.Perm.refl m
  Open_empty := by
    intro r
    simp [fixturePath]

/-- The same surroundings with `range` visiting the entries in reverse order. -/
def sampleOSReversed : OS where
  Open := sampleOS.Open
  randomBoundary := sampleOS.randomBoundary
  rangeOrder := fun m => m.reverse
  rangeOrder_perm := fun m => List.reverse_perm m
  Open_empty := sampleOS.Open_empty

/-- A library whose decoder scans the value `j` from a body that starts with the bytes
`body`, answers `io.EOF` or the read failure on a body without bytes, and a syntax error
on any other body. -/
def scanning (body : Bytes) (j : JSON) (hbody : body.isPrefixOf ([] : Bytes) = false) : Lib where
  newRequestErr := fun _ _ => none
  readJSON := fun r =>
    if body.isPrefixOf r.bytes then .ok j
    else if r.bytes = [] then
      match r.fail with
      | none => .error ioEOF
      | some e => .error e
    else .error { text := "invalid character" }
  parseFloat := fun _ => none
  formatFloat := fun _ => ""
  readJSON_empty := by
    intro r h1 h2
    simp [h1, h2, hbody]
  readJSON_object := by
    intro r r1 fields h hp
    by_cases hq : body.isPrefixOf r.bytes = true
    · have hq1 : body.isPrefixOf r1.bytes = true :=
        List.isPrefixOf_iff_prefix.mpr ((List.isPrefixOf_iff_prefix.mp hq).trans hp)
      simp only [hq, if_true] at h
      simp only [hq1, if_true]
      exact h
    · exfalso
      have hq0 : body.isPrefixOf r.bytes = false := Bool.eq_false_iff.mpr hq
      simp only [hq0] at h
      by_cases hb : r.bytes = []
      · cases hf : r.fail <;> simp [hb, hf] at h
      · simp [hb] at h

/-- The body `{}`. -/
def emptyObjectBody : Bytes := utf8 "\x7b\x7d"

/-- A body whose only key is `Error`, with a capital letter. -/
def capitalBody : Bytes := utf8 "\x7b\"Error\":\x7b\"message\":\"boom\"\x7d\x7d"

/-- The JSON value written in `capitalBody`. -/
def capitalJSON : JSON := .obj [("Error", .obj [("message", .str "boom")])]

/-- A codec that stores nothing. -/
def sampleCodec : Codec :=
  { unmarshalFile := fun _ => .ok {}, unmarshalImages := fun _ => .ok none }

/-- A transport that answers every request with status 200 and an empty body. -/
def sampleDo : HTTPClient → Request → Except LibError Response :=
  fun _ _ => .ok ⟨200, "200 OK", ⟨[], none⟩⟩

/-- The `float64` 42, by its bits. -/
def float42 : Float64 := ⟨0x4045000000000000⟩

/-- The library `scanning body j` with a number table: `strconv.ParseFloat` knows the
literal `42`, and rejects `1e999`, which lies outside the range of `float64`, along with
every literal the table does not list; the `%v` text of the `float64` 42 is `42`. -/
def scanningNumbers (body : Bytes) (j : JSON) (hbody : body.isPrefixOf ([] : Bytes) = false) :
    Lib :=
  { scanning body j hbody with
    parseFloat := fun lit => if lit = "42" then some float42 else none
    formatFloat := fun f => if f = float42 then "42" else "" }

/-- A failure body whose `param` is the number `1e999`. -/
def rangeBody : Bytes :=
  utf8 "\x7b\"error\":\x7b\"message\":\"bad\",\"type\":\"invalid\",\"code\":\"c\",\"param\":1e999\x7d\x7d"

/-- The JSON value written in `rangeBody`. -/
def rangeJSON : JSON :=
  .obj [("error", .obj [("message", .str "bad"), ("type", .str "invalid"),
    ("code", .str "c"), ("param", .num "1e999")])]

/-- A failure body whose `param` is an array of a string and a number. -/
def listBody : Bytes :=
  utf8 "\x7b\"error\":\x7b\"message\":\"quota\",\"type\":\"billing\",\"code\":\"429\",\"param\":[\"n\",42]\x7d\x7d"

/-- The JSON value written in `listBody`. -/
def listJSON : JSON :=
  .obj [("error", .obj [("message", .str "quota"), ("type", .str "billing"),
    ("code", .str "429"), ("param", .arr [.str "n", .num "42"])])]

/-! ## Shared lemmas -/

theorem Sprintf_errMsgTpl (m t c p : String) :
    Sprintf errMsgTpl [m, t, c, p] =
      "Message: " ++ m ++ " | Type: " ++ t ++ " | Code: " ++ c ++ " | Param: " ++ p := by
  apply String.ext
  simp [Sprintf, sprintfChars, errMsgTpl, String.data_append]

theorem Sprintf_bearer (a : String) : Sprintf "Bearer %s" [a] = "Bearer " ++ a := by
  apply String.ext
  simp [Sprintf, sprintfChars, String.data_append]

theorem Sprintf_bad_status (a : String) :
    Sprintf "bad status: %s" [a] = "bad status: " ++ a := by
  apply String.ext
  simp [Sprintf, sprintfChars, String.data_append]

theorem Sprintf_v (a : String) : Sprintf "%v" [a] = a := by
  apply String.ext
  simp [Sprintf, sprintfChars]

/-- Storing two members of a well-formed inner object in either order gives the same
struct. -/
theorem storeErrorField_comm (lib : Lib) (M T C : String) (P : JSON)
    (hP : (valueInterface lib P).2 = none) :
    ∀ x ∈ [("message", JSON.str M), ("type", JSON.str T), ("code", JSON.str C), ("param", P)],
    ∀ y ∈ [("message", JSON.str M), ("type", JSON.str T), ("code", JSON.str C), ("param", P)],
    ∀ z : ErrorFields × Option LibError,
      storeErrorField lib (storeErrorField lib z x) y =
        storeErrorField lib (storeErrorField lib z y) x := by
  intro x hx y hy z
  simp only [List.mem_cons, List.mem_singleton, List.not_mem_nil, or_false] at hx hy
  rcases hx with rfl | rfl | rfl | rfl <;> rcases hy with rfl | rfl | rfl | rfl <;>
    simp [storeErrorField, lookupField, errorFieldTags, storeString, firstErr, hP]

/-- What `Decode` stores for a well-formed envelope, whatever the order of the four
members of the inner object. -/
theorem decodeErrResp_envelope (lib : Lib) (body : Reader) (M T C : String) (P : JSON)
    (fields : List (String × JSON))
    (hfields : fields.Perm
      [("message", JSON.str M), ("type", JSON.str T), ("code", JSON.str C), ("param", P)])
    (hbody : lib.readJSON body = .ok (.obj [("error", .obj fields)]))
    (hP : (valueInterface lib P).2 = none) :
    decodeErrResp lib body =
      .ok { Error :=
        { Message := M, Type_ := T, Param := (valueInterface lib P).1, Code := C } } := by
  have hfold : fields.foldl (storeErrorField lib) ({}, none) =
      ([("message", JSON.str M), ("type", JSON.str T), ("code", JSON.str C),
        ("param", P)].foldl (storeErrorField lib) ({}, none)) := by
    refine (List.Perm.foldl_eq' hfields.symm ?_ _).symm
    exact storeErrorField_comm lib M T C P hP
  simp [decodeErrResp, hbody, unmarshalErrResp, storeErrRespField, lookupField,
    storeErrorFields, hfold, storeErrorField, errorFieldTags, storeString, firstErr, hP]

theorem ioCopyChunks_accepts (s : Sink) (cs : List Bytes) (fail : Option LibError)
    (h : s.accepts cs.flatten.length) :
    (ioCopyChunks s cs fail).1.received = s.received ++ cs.flatten ∧
      (ioCopyChunks s cs fail).2 = fail := by
  induction cs generalizing s with
  | nil => simp [ioCopyChunks]
  | cons c cs ih =>
    rcases hl : s.limit with _ | ⟨n, e⟩
    · simp only [ioCopyChunks, Sink.Write, hl]
      have := ih { received := s.received ++ c, limit := none } (by simp [Sink.accepts])
      simpa using this
    · simp only [Sink.accepts, hl, List.flatten_cons, List.length_append] at h
      have hc : c.length ≤ n := by omega
      simp only [ioCopyChunks, Sink.Write, hl, hc, if_true]
      have := ih { received := s.received ++ c, limit := some (n - c.length, e) }
        (by simp only [Sink.accepts]; omega)
      simpa using this

theorem ioCopyChunks_overflow (s : Sink) (cs : List Bytes) (fail : Option LibError)
    (n : Nat) (e : LibError) (h : s.limit = some (n, e)) (hn : n < cs.flatten.length) :
    (ioCopyChunks s cs fail).2 = some e := by
  induction cs generalizing s n with
  | nil => simp at hn
  | cons c cs ih =>
    simp only [ioCopyChunks, Sink.Write, h]
    by_cases hc : c.length ≤ n
    · simp only [hc, if_true]
      refine ih _ (n - c.length) rfl ?_
      simp only [List.flatten_cons, List.length_append] at hn
      omega
    · simp [hc]

/-- Bytes after a complete top-level object do not change what `Decode` stores. -/
theorem decodeErrResp_trailing (lib : Lib) (r r1 : Reader) (fields : List (String × JSON))
    (h : lib.readJSON r = .ok (.obj fields)) (hp : r.bytes <+: r1.bytes) :
    decodeErrResp lib r1 = decodeErrResp lib r := by
  simp only [decodeErrResp, h, lib.readJSON_object r r1 fields h hp]

theorem setMapIndex_fresh (k : String) (val : GoValue) (m : List (String × GoValue))
    (h : k ∉ m.map Prod.fst) : setMapIndex k val m = m ++ [(k, val)] := by
  induction m with
  | nil => rfl
  | cons kv rest ih =>
    obtain ⟨k1, v1⟩ := kv
    simp only [List.map_cons, List.mem_cons, not_or] at h
    have hne : ¬ k1 = k := fun h1 => h.1 h1.symm
    simp [setMapIndex, hne, ih h.2]

theorem mapstructure_fold_nodup (v : List StructField) (m : List (String × GoValue))
    (h : (m.map Prod.fst ++ (v.filterMap fieldEntry).map Prod.fst).Nodup) :
    v.foldl (fun m f =>
      match mapKey f with
      | some k => setMapIndex k f.Value m
      | none => m) m = m ++ v.filterMap fieldEntry := by
  induction v generalizing m with
  | nil => simp
  | cons f rest ih =>
    simp only [List.foldl_cons]
    cases hk : mapKey f with
    | none =>
      have he : fieldEntry f = none := by simp [fieldEntry, hk]
      simp only [List.filterMap_cons, he] at h ⊢
      exact ih m h
    | some k =>
      have he : fieldEntry f = some (k, f.Value) := by simp [fieldEntry, hk]
      simp only [List.filterMap_cons, he, List.map_cons] at h ⊢
      have hfresh : k ∉ m.map Prod.fst := by
        intro hin
        have := List.nodup_append.mp h
        exact this.2.2 hin (List.mem_cons_self _ _)
      rw [setMapIndex_fresh k f.Value m hfresh, ih]
      · simp
      · simpa [List.map_append, List.append_assoc] using h

/-- With pairwise different keys, the flattened record lists the entries of the fields
that are kept, in declaration order. -/
theorem mapstructureDecode_nodup (v : List StructField)
    (h : ((v.filterMap fieldEntry).map Prod.fst).Nodup) :
    mapstructureDecode v = v.filterMap fieldEntry := by
  have := mapstructure_fold_nodup v [] (by simpa using h)
  simpa [mapstructureDecode] using this

/-- The request handed to `Do` whenever `getHTTPResponse` has an outcome of the transport. -/
theorem getHTTPResponse_trace (lib : Lib) (c : client) (url method : String) (data : ReqBody)
    (contentType : String) (req : Request)
    (h : Event.Do req ∈ (getHTTPResponse lib c url method data contentType).trace) :
    ∃ req0, NewRequest lib method url data = .ok req0 ∧ req0.Header = [] ∧
      req = addHeaders c.cfg contentType req0 := by
  unfold getHTTPResponse at h
  cases hn : NewRequest lib method url data with
  | error err => simp [hn] at h
  | ok req0 =>
    refine ⟨req0, rfl, ?_, ?_⟩
    · unfold NewRequest at hn
      cases hl : lib.newRequestErr method url with
      | some err => simp [hl] at hn
      | none =>
        simp only [hl] at hn
        cases hn
        rfl
    · simp only [hn] at h
      cases hd : c.httpClient (addHeaders c.cfg contentType req0) with
      | error err =>
        simp only [hd] at h
        split at h <;> simpa using h
      | ok resp =>
        simp only [hd] at h
        simpa using h

/-! ## client.go: the response decoder -/

theorem arrayInterface_strings (lib : Lib) (ss : List String) :
    arrayInterface lib (ss.map JSON.str) = (ss.map GoAny.string, none) := by
  induction ss with
  | nil => rfl
  | cons a rest ih => simp [arrayInterface, valueInterface, ih, firstErr]

theorem formatItems_strings (lib : Lib) (ss : List String) :
    formatItems lib (ss.map GoAny.string) = ss := by
  induction ss with
  | nil => rfl
  | cons a rest ih => simp [formatItems, formatAny, ih]

/-- C1, as the claim states it, fails on a well-formed envelope whose `param` is the
number `1e999`: the number does not fit a `float64`, storing it is a decode error, and
`getRequestResponse` returns that error, not the error rendered from the template. -/
theorem getRequestResponse_param_out_of_range :
    (∃ e, (getRequestResponse (scanningNumbers rangeBody rangeJSON (by decide))
      (answering sampleConfig (.ok ⟨400, "400 Bad Request", ⟨[rangeBody], none⟩⟩))
      "https://api.openai.com/v1/models" "GET" .nil contentTypeJSON).ret =
        (none, some (.lib e))) ∧
    ∀ msg, (getRequestResponse (scanningNumbers rangeBody rangeJSON (by decide))
      (answering sampleConfig (.ok ⟨400, "400 Bad Request", ⟨[rangeBody], none⟩⟩))
      "https://api.openai.com/v1/models" "GET" .nil contentTypeJSON).ret.2 ≠
        some (.errorsNew msg) := by
  have h : (getRequestResponse (scanningNumbers rangeBody rangeJSON (by decide))
      (answering sampleConfig (.ok ⟨400, "400 Bad Request", ⟨[rangeBody], none⟩⟩))
      "https://api.openai.com/v1/models" "GET" .nil contentTypeJSON).ret =
      (none, some (.lib (unmarshalTypeError "number 1e999" "float64"))) := by
    decide
  refine ⟨⟨_, h⟩, ?_⟩
  intro msg
  rw [h]
  simp

/-- C1, amended: a response with status at least 400 whose body is the envelope
`{"error": {message: M, type: T, code: C, param: P}}` (members in any order), where every
number inside `P` is one that `strconv.ParseFloat` accepts, makes `getRequestResponse`
return no bytes and an error made by `errors.New` whose text is
`Message: M | Type: T | Code: C | Param: ` followed by the `%v` text of the stored `P`.
That text is `<nil>` for `null`, the string itself for a string, `true` or `false` for a
boolean, the `%v` text of the parsed `float64` for a number, the texts of the elements
between brackets and separated by blanks for an array, and `map[` key `:` text `]` with
the keys in sorted order for an object. -/
theorem getRequestResponse_error_envelope (lib : Lib) (c : client) (url method : String)
    (data : ReqBody) (contentType : String) (resp : Response) (M T C : String) (P : JSON)
    (fields : List (String × JSON))
    (hresp : (getHTTPResponse lib c url method data contentType).ret = .ok resp)
    (hstatus : resp.StatusCode ≥ 400)
    (hfields : fields.Perm
      [("message", JSON.str M), ("type", JSON.str T), ("code", JSON.str C), ("param", P)])
    (hbody : lib.readJSON resp.Body = .ok (.obj [("error", .obj fields)]))
    (hP : (valueInterface lib P).2 = none) :
    ∃ err text,
      (getRequestResponse lib c url method data contentType).ret = (none, some err) ∧
      err = .errorsNew ("Message: " ++ M ++ " | Type: " ++ T ++ " | Code: " ++ C ++
        " | Param: " ++ text) ∧
      err.Error = "Message: " ++ M ++ " | Type: " ++ T ++ " | Code: " ++ C ++
        " | Param: " ++ text ∧
      text = formatAny lib (valueInterface lib P).1 ∧
      (P = .null → text = "<nil>") ∧
      (∀ s, P = .str s → text = s) ∧
      (P = .bool true → text = "true") ∧
      (P = .bool false → text = "false") ∧
      (∀ lit f, P = .num lit → lib.parseFloat lit = some f → text = lib.formatFloat f) ∧
      (∀ ss : List String, P = .arr (ss.map JSON.str) →
        text = "[" ++ " ".intercalate ss ++ "]") ∧
      (∀ k s, P = .obj [(k, .str s)] → text = "map[" ++ (k ++ ":" ++ s) ++ "]") ∧
      (∀ s1 s2, P = .obj [("b", .str s1), ("a", .str s2)] →
        text = "map[" ++ ("a:" ++ s2 ++ " " ++ ("b:" ++ s1)) ++ "]") ∧
      (∀ s1 s2, P = .obj [("a", .str s1), ("a", .str s2)] →
        text = "map[" ++ ("a:" ++ s2) ++ "]") := by
  refine ⟨_, formatAny lib (valueInterface lib P).1, ?_, rfl, rfl, rfl, ?_, ?_, ?_, ?_, ?_,
    ?_, ?_, ?_, ?_⟩
  · simp only [getRequestResponse, hresp, hstatus, if_true,
      decodeErrResp_envelope lib resp.Body M T C P fields hfields hbody hP, Sprintf_errMsgTpl]
  · rintro rfl
    simp [valueInterface, formatAny]
  · rintro s rfl
    simp [valueInterface, formatAny]
  · rintro rfl
    simp [valueInterface, formatAny]
  · rintro rfl
    simp [valueInterface, formatAny]
  · rintro lit f rfl hf
    simp [valueInterface, hf, formatAny]
  · rintro ss rfl
    simp [valueInterface, arrayInterface_strings, formatAny, formatItems_strings]
  · rintro k s rfl
    simp [valueInterface, objectInterface, mapAssign, formatAny, formatEntries,
      String.intercalate, String.intercalate.go]
  · rintro s1 s2 rfl
    simp [valueInterface, objectInterface, mapAssign, formatAny, formatEntries,
      String.intercalate, String.intercalate.go, strLt]
  · rintro s1 s2 rfl
    simp [valueInterface, objectInterface, mapAssign, formatAny, formatEntries,
      String.intercalate, String.intercalate.go]

theorem getRequestResponse_error_envelope_witness :
    (getRequestResponse (scanningNumbers listBody listJSON (by decide))
      (answering sampleConfig (.ok ⟨429, "429 Too Many Requests", ⟨[listBody], none⟩⟩))
      "https://api.openai.com/v1/models" "GET" .nil contentTypeJSON).ret =
      (none, some (.errorsNew "Message: quota | Type: billing | Code: 429 | Param: [n 42]")) := by
  obtain ⟨err, text, h1, h2, _, h4, _⟩ :=
    getRequestResponse_error_envelope (scanningNumbers listBody listJSON (by decide))
      (answering sampleConfig (.ok ⟨429, "429 Too Many Requests", ⟨[listBody], none⟩⟩))
      "https://api.openai.com/v1/models" "GET" .nil contentTypeJSON
      ⟨429, "429 Too Many Requests", ⟨[listBody], none⟩⟩ "quota" "billing" "429"
      (.arr [.str "n", .num "42"])
      [("message", .str "quota"), ("type", .str "billing"), ("code", .str "429"),
        ("param", .arr [.str "n", .num "42"])]
      rfl (by decide) (List.Perm.refl _) rfl rfl
  rw [h1, h2, h4]
  rfl

/-- C2: a response with status below 400 whose body is read without error makes
`getRequestResponse` return exactly the bytes of the body and a nil error, whatever the
JSON decoder would make of them. -/
theorem getRequestResponse_success_body (lib : Lib) (c : client) (url method : String)
    (data : ReqBody) (contentType : String) (resp : Response)
    (hresp : (getHTTPResponse lib c url method data contentType).ret = .ok resp)
    (hstatus : resp.StatusCode < 400)
    (hread : resp.Body.fail = none) :
    (getRequestResponse lib c url method data contentType).ret = (some resp.Body.bytes, none) := by
  have hs : ¬ resp.StatusCode ≥ 400 := by omega
  simp [getRequestResponse, hresp, hs, ioReadAll, hread]

theorem getRequestResponse_success_body_witness :
    (getRequestResponse sampleLib
      (answering sampleConfig (.ok ⟨204, "204 No Content", ⟨[[1, 2], [3]], none⟩⟩))
      "https://api.openai.com/v1/files" "GET" .nil contentTypeJSON).ret =
      (some (Reader.bytes ⟨[[1, 2], [3]], none⟩), none) :=
  getRequestResponse_success_body sampleLib
    (answering sampleConfig (.ok ⟨204, "204 No Content", ⟨[[1, 2], [3]], none⟩⟩))
    "https://api.openai.com/v1/files" "GET" .nil contentTypeJSON
    ⟨204, "204 No Content", ⟨[[1, 2], [3]], none⟩⟩ rfl (by decide) rfl

/-- C3: on a response with status 200 whose body hands out the bytes `ab` and then fails,
`getRequestResponse` returns both the bytes read so far and a non-nil error. -/
theorem getRequestResponse_bytes_and_error :
    (getRequestResponse sampleLib
      (answering sampleConfig
        (.ok ⟨200, "200 OK", ⟨[[97, 98]], some { text := "unexpected EOF" }⟩⟩))
      "https://api.openai.com/v1/models" "GET" .nil contentTypeJSON).ret =
      (some [97, 98], some (.lib { text := "unexpected EOF" })) := by
  decide

/-- C4, as the claim states it, fails on a body that is not valid JSON because text
follows a complete JSON object: on status 502 and the body of `quotaBody` followed by
`<html>`, the decoder reads the object and stops, and `getRequestResponse` returns the
error rendered from the message template. -/
theorem getRequestResponse_trailing_text :
    (getRequestResponse sampleLib
      (answering sampleConfig
        (.ok ⟨502, "502 Bad Gateway", ⟨[quotaBody ++ utf8 "<html>"], none⟩⟩))
      "https://api.openai.com/v1/models" "GET" .nil contentTypeJSON).ret =
      (none, some (.errorsNew "Message: quota | Type: billing | Code: 429 | Param: <nil>")) := by
  decide

/-- C4, amended: a response with status at least 400 from whose body the JSON decoder
cannot read a first JSON value makes `getRequestResponse` return no bytes and the
decoder's own error, which is no value made by `errors.New` from the message template;
a body without any byte is rejected with `io.EOF`. -/
theorem getRequestResponse_decode_error (lib : Lib) (c : client) (url method : String)
    (data : ReqBody) (contentType : String) (resp : Response) (e : LibError)
    (hresp : (getHTTPResponse lib c url method data contentType).ret = .ok resp)
    (hstatus : resp.StatusCode ≥ 400)
    (hbody : lib.readJSON resp.Body = .error e) :
    (getRequestResponse lib c url method data contentType).ret = (none, some (.lib e)) ∧
    (∀ msg, (getRequestResponse lib c url method data contentType).ret.2 ≠
      some (.errorsNew msg)) ∧
    (resp.Body.bytes = [] → resp.Body.fail = none → e = ioEOF) := by
  have h : (getRequestResponse lib c url method data contentType).ret =
      (none, some (.lib e)) := by
    simp [getRequestResponse, hresp, hstatus, decodeErrResp, hbody]
  refine ⟨h, ?_, ?_⟩
  · intro msg
    simp [h]
  · intro h1 h2
    have := lib.readJSON_empty resp.Body h1 h2
    rw [hbody] at this
    cases this
    rfl

theorem getRequestResponse_decode_error_witness :
    (getRequestResponse sampleLib
      (answering sampleConfig (.ok ⟨502, "502 Bad Gateway", ⟨[], none⟩⟩))
      "https://api.openai.com/v1/models" "GET" .nil contentTypeJSON).ret =
        (none, some (.lib ioEOF)) ∧
    (∀ msg, (getRequestResponse sampleLib
      (answering sampleConfig (.ok ⟨502, "502 Bad Gateway", ⟨[], none⟩⟩))
      "https://api.openai.com/v1/models" "GET" .nil contentTypeJSON).ret.2 ≠
        some (.errorsNew msg)) ∧
    (Reader.bytes ⟨[], none⟩ = [] → (none : Option LibError) = none → ioEOF = ioEOF) :=
  getRequestResponse_decode_error sampleLib
    (answering sampleConfig (.ok ⟨502, "502 Bad Gateway", ⟨[], none⟩⟩))
    "https://api.openai.com/v1/models" "GET" .nil contentTypeJSON
    ⟨502, "502 Bad Gateway", ⟨[], none⟩⟩ ioEOF rfl (by decide) rfl

/-! ## client.go: the transport -/

theorem canonical_contentType :
    CanonicalMIMEHeaderKey headerNameContentType = "Content-Type" := by decide

theorem canonical_authorization :
    CanonicalMIMEHeaderKey headerNameAuthorization = "Authorization" := by decide

theorem canonical_organization :
    CanonicalMIMEHeaderKey headerNameOpenAIOrganization = "Openai-Organization" := by decide

/-- The authorization and organization headers of the request built by `addHeaders` from
a request without headers. -/
theorem addHeaders_values (cfg : Config) (contentType : String) (req0 : Request)
    (h0 : req0.Header = []) :
    Header.Values (addHeaders cfg contentType req0).Header headerNameAuthorization =
      ["Bearer " ++ cfg.APIKey] ∧
    Header.Values (addHeaders cfg contentType req0).Header headerNameOpenAIOrganization =
      (if cfg.OrganizationID = "" then [] else [cfg.OrganizationID]) := by
  by_cases hc : contentType = "" <;> by_cases ho : cfg.OrganizationID = "" <;>
    simp [addHeaders, hc, ho, h0, Header.Add, Header.Values, headerAppend,
      canonical_contentType, canonical_authorization, canonical_organization, Sprintf_bearer,
      List.find?]

/-- C5: when `Do` fails with a timeout (a `net.Error` whose `Timeout()` is true),
`getHTTPResponse` returns no response and the sentinel `ErrRequestTimeout`, not the
transport's error; when `Do` fails otherwise, it returns the transport's error value
itself. -/
theorem getHTTPResponse_transport_failure (lib : Lib) (c : client) (url method : String)
    (data : ReqBody) (contentType : String) (req0 : Request) (e : LibError)
    (hnew : NewRequest lib method url data = .ok req0)
    (hdo : c.httpClient (addHeaders c.cfg contentType req0) = .error e) :
    (e.netTimeout = some true →
      (getHTTPResponse lib c url method data contentType).ret = .error .ErrRequestTimeout ∧
      (getHTTPResponse lib c url method data contentType).ret ≠ .error (.lib e)) ∧
    (e.netTimeout ≠ some true →
      (getHTTPResponse lib c url method data contentType).ret = .error (.lib e)) := by
  constructor
  · intro ht
    simp [getHTTPResponse, hnew, hdo, ht]
  · intro ht
    simp [getHTTPResponse, hnew, hdo, ht]

theorem getHTTPResponse_transport_failure_witness :
    (getHTTPResponse sampleLib
      (answering sampleConfig (.error ⟨"Client.Timeout exceeded", some true⟩))
      "https://api.openai.com/v1/models" "GET" .nil contentTypeJSON).ret =
        .error .ErrRequestTimeout ∧
    (getHTTPResponse sampleLib
      (answering sampleConfig (.error ⟨"Client.Timeout exceeded", some true⟩))
      "https://api.openai.com/v1/models" "GET" .nil contentTypeJSON).ret ≠
        .error (.lib ⟨"Client.Timeout exceeded", some true⟩) :=
  (getHTTPResponse_transport_failure sampleLib
    (answering sampleConfig (.error ⟨"Client.Timeout exceeded", some true⟩))
    "https://api.openai.com/v1/models" "GET" .nil contentTypeJSON
    ⟨"GET", "https://api.openai.com/v1/models", .nil, []⟩
    ⟨"Client.Timeout exceeded", some true⟩ rfl rfl).1 rfl

/-- C6: every request that `getHTTPResponse` hands to `Do` carries exactly one
`Authorization` value, `Bearer ` followed by the configured `APIKey`; it carries the
`OrganizationID` as its one `OpenAI-Organization` value when that is non-empty and no
`OpenAI-Organization` value when it is empty.  A request is handed to `Do` whenever
`http.NewRequest` accepts the method and URL. -/
theorem getHTTPResponse_headers (lib : Lib) (c : client) (url method : String)
    (data : ReqBody) (contentType : String) :
    (∀ req, Event.Do req ∈ (getHTTPResponse lib c url method data contentType).trace →
      Header.Values req.Header headerNameAuthorization = ["Bearer " ++ c.cfg.APIKey] ∧
      Header.Get req.Header headerNameAuthorization = "Bearer " ++ c.cfg.APIKey ∧
      (c.cfg.OrganizationID ≠ "" →
        Header.Values req.Header headerNameOpenAIOrganization = [c.cfg.OrganizationID] ∧
        Header.Get req.Header headerNameOpenAIOrganization = c.cfg.OrganizationID) ∧
      (c.cfg.OrganizationID = "" →
        Header.Values req.Header headerNameOpenAIOrganization = [])) ∧
    (lib.newRequestErr method url = none →
      ∃ req, (getHTTPResponse lib c url method data contentType).trace = [.Do req]) := by
  constructor
  · intro req hreq
    obtain ⟨req0, _, h0, rfl⟩ := getHTTPResponse_trace lib c url method data contentType req hreq
    have hv := addHeaders_values c.cfg contentType req0 h0
    refine ⟨hv.1, ?_, ?_, ?_⟩
    · simp [Header.Get, hv.1]
    · intro ho
      simp [Header.Get, hv.2, ho]
    · intro ho
      simp [hv.2, ho]
  · intro hn
    unfold getHTTPResponse NewRequest
    simp only [hn]
    split
    · split <;> exact ⟨_, rfl⟩
    · exact ⟨_, rfl⟩

theorem getHTTPResponse_headers_witness :
    Header.Values (addHeaders sampleConfig contentTypeJSON
      ⟨"GET", "https://api.openai.com/v1/models", .nil, []⟩).Header headerNameAuthorization =
        ["Bearer " ++ "sk-test"] ∧
    Header.Values (addHeaders sampleConfig contentTypeJSON
      ⟨"GET", "https://api.openai.com/v1/models", .nil, []⟩).Header
        headerNameOpenAIOrganization = ["org-1"] :=
  have h := (getHTTPResponse_headers sampleLib
    (answering sampleConfig (.ok ⟨200, "200 OK", ⟨[], none⟩⟩))
    "https://api.openai.com/v1/models" "GET" .nil contentTypeJSON).1
    (addHeaders sampleConfig contentTypeJSON ⟨"GET", "https://api.openai.com/v1/models", .nil, []⟩)
    (List.mem_singleton.mpr rfl)
  ⟨h.1, (h.2.2.1 (by decide)).1⟩

/-! ## client.go: the streaming sink -/

/-- C7: a response whose status code is not 200 makes `streamRequestResponse` return the
error made by `fmt.Errorf` whose text is `bad status: ` followed by the response's status
text, whatever the body holds, and leaves the sink as it was. -/
theorem streamRequestResponse_bad_status (lib : Lib) (c : client) (url method : String)
    (data : ReqBody) (contentType : String) (dst : Sink) (resp : Response)
    (hresp : (getHTTPResponse lib c url method data contentType).ret = .ok resp)
    (hstatus : resp.StatusCode ≠ 200) :
    (streamRequestResponse lib c url method data contentType dst).ret =
      (some (.fmtErrorf ("bad status: " ++ resp.Status)), dst) ∧
    (GoError.fmtErrorf ("bad status: " ++ resp.Status)).Error = "bad status: " ++ resp.Status := by
  refine ⟨?_, rfl⟩
  simp [streamRequestResponse, hresp, StatusOK, hstatus, Sprintf_bad_status]

theorem streamRequestResponse_bad_status_witness :
    (streamRequestResponse sampleLib
      (answering sampleConfig (.ok ⟨429, "429 Too Many Requests", ⟨[quotaBody], none⟩⟩))
      "https://api.openai.com/v1/files/f1/content" "GET" .nil "" ⟨[7], none⟩).ret =
      (some (.fmtErrorf ("bad status: " ++ "429 Too Many Requests")), ⟨[7], none⟩) ∧
    (GoError.fmtErrorf ("bad status: " ++ "429 Too Many Requests")).Error =
      "bad status: " ++ "429 Too Many Requests" :=
  streamRequestResponse_bad_status sampleLib
    (answering sampleConfig (.ok ⟨429, "429 Too Many Requests", ⟨[quotaBody], none⟩⟩))
    "https://api.openai.com/v1/files/f1/content" "GET" .nil "" ⟨[7], none⟩
    ⟨429, "429 Too Many Requests", ⟨[quotaBody], none⟩⟩ rfl (by decide)

/-- C8: on a response with status 200, `streamRequestResponse` returns the error of
`io.Copy`.  With a sink that has room for the body's bytes `B` and a body read without
error it returns nil and the sink holds what it held followed by exactly `B`; a failure
to read the body is returned (the bytes read before it are in the sink), and so is the
error of a sink whose room is used up before the body's bytes are written. -/
theorem streamRequestResponse_copy (lib : Lib) (c : client) (url method : String)
    (data : ReqBody) (contentType : String) (dst : Sink) (resp : Response)
    (hresp : (getHTTPResponse lib c url method data contentType).ret = .ok resp)
    (hstatus : resp.StatusCode = 200) :
    (streamRequestResponse lib c url method data contentType dst).ret.1 =
      (ioCopy dst resp.Body).2.map GoError.lib ∧
    (dst.accepts resp.Body.bytes.length → resp.Body.fail = none →
      (streamRequestResponse lib c url method data contentType dst).ret.1 = none ∧
      (streamRequestResponse lib c url method data contentType dst).ret.2.received =
        dst.received ++ resp.Body.bytes) ∧
    (∀ e, dst.accepts resp.Body.bytes.length → resp.Body.fail = some e →
      (streamRequestResponse lib c url method data contentType dst).ret.1 = some (.lib e) ∧
      (streamRequestResponse lib c url method data contentType dst).ret.2.received =
        dst.received ++ resp.Body.bytes) ∧
    (∀ n e, dst.limit = some (n, e) → n < resp.Body.bytes.length →
      (streamRequestResponse lib c url method data contentType dst).ret.1 = some (.lib e)) := by
  have hgen : (streamRequestResponse lib c url method data contentType dst).ret =
      ((ioCopy dst resp.Body).2.map GoError.lib, (ioCopy dst resp.Body).1) := by
    simp only [streamRequestResponse, hresp, StatusOK, hstatus, ne_eq, not_true_eq_false,
      if_false]
    rcases hcopy : ioCopy dst resp.Body with ⟨d, _ | e⟩ <;> simp
  refine ⟨by rw [hgen], ?_, ?_, ?_⟩
  · intro hl hf
    have h := ioCopyChunks_accepts dst resp.Body.chunks resp.Body.fail hl
    rw [hgen]
    exact ⟨by rw [ioCopy, h.2, hf]; rfl, h.1⟩
  · intro e hl hf
    have h := ioCopyChunks_accepts dst resp.Body.chunks resp.Body.fail hl
    rw [hgen]
    exact ⟨by rw [ioCopy, h.2, hf]; rfl, h.1⟩
  · intro n e hl hn
    rw [hgen, ioCopy]
    simp only [ioCopyChunks_overflow dst _ _ n e hl hn, Option.map_some']

theorem streamRequestResponse_copy_witness :
    (streamRequestResponse sampleLib
      (answering sampleConfig (.ok ⟨200, "200 OK", ⟨[[1, 2], [3]], none⟩⟩))
      "https://api.openai.com/v1/files/f1/content" "GET" .nil "" ⟨[7], none⟩).ret.1 = none ∧
    (streamRequestResponse sampleLib
      (answering sampleConfig (.ok ⟨200, "200 OK", ⟨[[1, 2], [3]], none⟩⟩))
      "https://api.openai.com/v1/files/f1/content" "GET" .nil "" ⟨[7], none⟩).ret.2.received =
      [7] ++ Reader.bytes ⟨[[1, 2], [3]], none⟩ :=
  (streamRequestResponse_copy sampleLib
    (answering sampleConfig (.ok ⟨200, "200 OK", ⟨[[1, 2], [3]], none⟩⟩))
    "https://api.openai.com/v1/files/f1/content" "GET" .nil "" ⟨[7], none⟩
    ⟨200, "200 OK", ⟨[[1, 2], [3]], none⟩⟩ rfl rfl).2.1 trivial rfl

/-! ## utils.go: the multipart encoder -/

theorem createFormFile_copyFrom (w : Buffer) (k filename : String) (file : Reader) :
    (w.CreateFormFile k filename).copyFrom file =
      ({ w with parts := w.parts ++
          [{ FormName := k, FileName := some filename,
             ContentType := some "application/octet-stream", Content := file.bytes }] },
        file.fail) := by
  simp [Buffer.CreateFormFile, Buffer.copyFrom, Buffer.writePart]

/-- When every entry can be written, the loop appends the entries' parts in the order
visited. -/
theorem encodeFields_ok (os : OS) (l : List (String × GoValue)) (w : Buffer)
    (tr : List Event) (h : ∀ kv ∈ l, (entryPart os kv).isSome) :
    (encodeFields os l w tr).ret =
      .ok { w with parts := w.parts ++ l.filterMap (entryPart os) } := by
  induction l generalizing w tr with
  | nil => simp [encodeFields]
  | cons kv rest ih =>
    obtain ⟨k, v⟩ := kv
    have hhead := h (k, v) (List.mem_cons_self _ _)
    have hrest : ∀ kv ∈ rest, (entryPart os kv).isSome :=
      fun kv hkv => h kv (List.mem_cons_of_mem _ hkv)
    unfold encodeFields
    simp only [Sprintf_v]
    by_cases hf : isFileEntry k v.format = true
    · simp only [hf, if_true]
      cases ho : os.Open v.format with
      | error err => simp [entryPart, hf, ho] at hhead
      | ok file =>
        have hfail : file.fail = none := by
          by_contra hne
          simp [entryPart, hf, ho, hne] at hhead
        simp only [createFormFile_copyFrom, hfail]
        rw [ih _ _ hrest]
        simp [List.filterMap_cons, entryPart, hf, ho, hfail]
    · simp only [hf]
      rw [if_neg (by simp), ih _ _ hrest]
      simp [List.filterMap_cons, entryPart, hf, Buffer.WriteField, utf8]

/-- When some entry cannot be written, the loop returns the error of opening or reading
the file of one of the entries. -/
theorem encodeFields_error (os : OS) (l : List (String × GoValue)) (w : Buffer)
    (tr : List Event) (h : ∃ kv ∈ l, entryPart os kv = none) :
    ∃ err, (encodeFields os l w tr).ret = .error (.lib err) ∧
      ∃ kv ∈ l, isFileEntry kv.1 kv.2.format = true ∧
        (os.Open kv.2.format = .error err ∨
          ∃ file, os.Open kv.2.format = .ok file ∧ file.fail = some err) := by
  induction l generalizing w tr with
  | nil => simp at h
  | cons kv rest ih =>
    obtain ⟨k, v⟩ := kv
    unfold encodeFields
    simp only [Sprintf_v]
    by_cases hf : isFileEntry k v.format = true
    · simp only [hf, if_true]
      cases ho : os.Open v.format with
      | error err =>
        exact ⟨err, rfl, (k, v), List.mem_cons_self _ _, hf, Or.inl ho⟩
      | ok file =>
        simp only [createFormFile_copyFrom]
        cases hfail : file.fail with
        | some err =>
          exact ⟨err, rfl, (k, v), List.mem_cons_self _ _, hf, Or.inr ⟨file, ho, hfail⟩⟩
        | none =>
          have hrest : ∃ kv ∈ rest, entryPart os kv = none := by
            obtain ⟨kv, hkv, hnone⟩ := h
            rcases List.mem_cons.mp hkv with rfl | hmem
            · simp [entryPart, hf, ho, hfail] at hnone
            · exact ⟨kv, hmem, hnone⟩
          obtain ⟨err, hret, kv, hkv, hrest2⟩ := ih _ _ hrest
          exact ⟨err, hret, kv, List.mem_cons_of_mem _ hkv, hrest2⟩
    · simp only [hf]
      rw [if_neg (by simp)]
      have hrest : ∃ kv ∈ rest, entryPart os kv = none := by
        obtain ⟨kv, hkv, hnone⟩ := h
        rcases List.mem_cons.mp hkv with rfl | hmem
        · simp [entryPart, hf] at hnone
        · exact ⟨kv, hmem, hnone⟩
      obtain ⟨err, hret, kv, hkv, hrest2⟩ := ih _ _ hrest
      exact ⟨err, hret, kv, List.mem_cons_of_mem _ hkv, hrest2⟩

theorem formDataContentType_prefix (w : Buffer) :
    "multipart/form-data".data <+: w.FormDataContentType.data := by
  unfold Buffer.FormDataContentType
  split
  · exact ⟨("; boundary=\"" ++ w.boundary ++ "\"").data, by simp [String.data_append]⟩
  · exact ⟨("; boundary=" ++ w.boundary).data, by simp [String.data_append]⟩

/-- C9, as the claim states it, fails in two ways.  On `testStruct` with the fixture as
`File` and an empty `Field` the encoding succeeds and its body holds the file part alone,
no part named `field`: the `omitempty` tag drops the empty field before the loop.  On
`ImageEditParams` with the fixture as `Image`, a prompt, and a `Mask` that cannot be
opened, the encoding fails although the record has a readable file field and a plain
text field. -/
theorem structToMultipartFormData_round_trip_fails :
    (structToMultipartFormData sampleOS (testStruct fixturePath "")).ret.1.map
        (fun data => data.parts) =
      some [{ FormName := "file", FileName := some "test-file.jsonl",
              ContentType := some "application/octet-stream", Content := fixtureBytes }] ∧
    (structToMultipartFormData sampleOS (testStruct fixturePath "")).ret.2.2 = none ∧
    (structToMultipartFormData sampleOS
      (ImageEditParams fixturePath "/missing-mask.png" "a prompt" 0 "" "" "")).ret =
      (none, "", some (.lib
        { text := "open /missing-mask.png: no such file or directory" })) := by
  refine ⟨?_, ?_, ?_⟩
  · rfl
  · rfl
  · rfl

/-- C9, amended: when the flattened record holds an entry `f` (named image, mask or
file) whose value is the path of a file that opens and reads without error with bytes
`F`, and an entry `k` (none of these names) with value `val`, and every file-bearing
entry of the flattened record opens and reads without error, then
`structToMultipartFormData` succeeds whatever the order of the loop: the buffer returned
is closed, framed by the boundary named in the content type returned, holds a part named
`f` with filename `path.Base` of the path, content type `application/octet-stream` and
content `F`, and a part named `k` without filename whose content is the bytes of the
text of `val`; the content type begins with `multipart/form-data`. -/
theorem structToMultipartFormData_round_trip (os : OS) (v : List StructField)
    (f path k : String) (val : GoValue) (file : Reader)
    (hf : f = "image" ∨ f = "mask" ∨ f = "file")
    (hfile : (f, GoValue.string path) ∈ mapstructureDecode v)
    (hopen : os.Open path = .ok file)
    (hread : file.fail = none)
    (hk : k ≠ "image" ∧ k ≠ "mask" ∧ k ≠ "file")
    (hfield : (k, val) ∈ mapstructureDecode v)
    (hall : ∀ k1 v1, (k1, v1) ∈ mapstructureDecode v → isFileEntry k1 v1.format = true →
      ∃ r, os.Open v1.format = .ok r ∧ r.fail = none) :
    ∃ data, (structToMultipartFormData os v).ret = (some data, data.FormDataContentType, none) ∧
      data.closed = true ∧
      data.boundary = os.randomBoundary ∧
      "multipart/form-data".data <+: data.FormDataContentType.data ∧
      { FormName := f, FileName := some (pathBase path),
        ContentType := some "application/octet-stream", Content := file.bytes } ∈ data.parts ∧
      { FormName := k, FileName := none, ContentType := none,
        Content := utf8 val.format } ∈ data.parts := by
  have hsome : ∀ kv ∈ os.rangeOrder (mapstructureDecode v), (entryPart os kv).isSome := by
    intro kv hkv
    have hmem := (os.rangeOrder_perm _).mem_iff.mp hkv
    by_cases hfe : isFileEntry kv.1 kv.2.format = true
    · obtain ⟨r, hr, hrf⟩ := hall kv.1 kv.2 hmem hfe
      simp [entryPart, hfe, hr, hrf]
    · simp [entryPart, hfe]
  have hpath : path ≠ "" := by
    intro h
    rw [h] at hopen
    exact os.Open_empty file hopen
  have hfe : isFileEntry f (GoValue.string path).format = true := by
    rcases hf with rfl | rfl | rfl <;> simp [isFileEntry, GoValue.format, hpath]
  have hke : isFileEntry k val.format = false := by
    simp [isFileEntry, hk.1, hk.2.1, hk.2.2]
  refine ⟨Buffer.Close { multipartNewWriter os.randomBoundary with
      parts := (multipartNewWriter os.randomBoundary).parts ++
        (os.rangeOrder (mapstructureDecode v)).filterMap (entryPart os) },
    ?_, rfl, rfl, formDataContentType_prefix _, ?_, ?_⟩
  · simp only [structToMultipartFormData, encodeFields_ok os _ _ _ hsome]
  · simp only [Buffer.Close, multipartNewWriter, List.nil_append, List.mem_filterMap]
    refine ⟨(f, GoValue.string path), (os.rangeOrder_perm _).mem_iff.mpr hfile, ?_⟩
    simp only [entryPart, hfe, if_true]
    simp [GoValue.format, hopen, hread]
  · simp only [Buffer.Close, multipartNewWriter, List.nil_append, List.mem_filterMap]
    refine ⟨(k, val), (os.rangeOrder_perm _).mem_iff.mpr hfield, ?_⟩
    simp [entryPart, hke]

theorem structToMultipartFormData_round_trip_witness :
    ∃ data, (structToMultipartFormData sampleOSReversed (testStruct fixturePath "test")).ret =
        (some data, data.FormDataContentType, none) ∧
      data.closed = true ∧
      data.boundary = sampleOSReversed.randomBoundary ∧
      "multipart/form-data".data <+: data.FormDataContentType.data ∧
      { FormName := "file", FileName := some (pathBase fixturePath),
        ContentType := some "application/octet-stream",
        Content := Reader.bytes { chunks := [fixtureBytes] } } ∈ data.parts ∧
      { FormName := "field", FileName := none, ContentType := none,
        Content := utf8 (GoValue.string "test").format } ∈ data.parts :=
  structToMultipartFormData_round_trip sampleOSReversed (testStruct fixturePath "test")
    "file" fixturePath "field" (.string "test") { chunks := [fixtureBytes] }
    (Or.inr (Or.inr rfl)) (by decide) rfl rfl (by decide) (by decide)
    (by
      intro k1 v1 hmem hfe
      have hm : mapstructureDecode (testStruct fixturePath "test") =
          [("file", .string fixturePath), ("field", .string "test")] := by decide
      rw [hm] at hmem
      simp only [List.mem_cons, Prod.mk.injEq, List.mem_singleton, List.not_mem_nil,
        or_false] at hmem
      rcases hmem with ⟨rfl, rfl⟩ | ⟨rfl, rfl⟩
      · exact ⟨{ chunks := [fixtureBytes] }, rfl, rfl⟩
      · simp [isFileEntry] at hfe)

/-- C10: when the flattened record holds an entry named image, mask or file whose
non-empty value is a path that cannot be opened, `structToMultipartFormData` returns a
nil buffer, the empty content type and a non-nil error, whatever the other fields and
the order of the loop; the error is the one met on opening or reading the file of a
file-bearing entry of the record. -/
theorem structToMultipartFormData_unopenable (os : OS) (v : List StructField)
    (k : String) (val : GoValue) (e : LibError)
    (hmem : (k, val) ∈ mapstructureDecode v)
    (hk : k = "image" ∨ k = "mask" ∨ k = "file")
    (hval : val.format ≠ "")
    (hopen : os.Open val.format = .error e) :
    ∃ err, (structToMultipartFormData os v).ret = (none, "", some (.lib err)) ∧
      ∃ k1 v1, (k1, v1) ∈ mapstructureDecode v ∧ isFileEntry k1 v1.format = true ∧
        (os.Open v1.format = .error err ∨
          ∃ file, os.Open v1.format = .ok file ∧ file.fail = some err) := by
  have hfe : isFileEntry k val.format = true := by
    rcases hk with rfl | rfl | rfl <;> simp [isFileEntry, hval]
  have hbad : ∃ kv ∈ os.rangeOrder (mapstructureDecode v), entryPart os kv = none :=
    ⟨(k, val), (os.rangeOrder_perm _).mem_iff.mpr hmem, by simp [entryPart, hfe, hopen]⟩
  obtain ⟨err, hret, kv, hkv, hfile, hwhy⟩ :=
    encodeFields_error os _ (multipartNewWriter os.randomBoundary) [] hbad
  refine ⟨err, ?_, kv.1, kv.2, (os.rangeOrder_perm _).mem_iff.mp hkv, hfile, hwhy⟩
  simp only [structToMultipartFormData, hret]

theorem structToMultipartFormData_unopenable_witness :
    ∃ err, (structToMultipartFormData sampleOS
        (testStruct "/invalid/path/to/file.txt" "Test")).ret = (none, "", some (.lib err)) ∧
      ∃ k1 v1, (k1, v1) ∈ mapstructureDecode (testStruct "/invalid/path/to/file.txt" "Test") ∧
        isFileEntry k1 v1.format = true ∧
        (sampleOS.Open v1.format = .error err ∨
          ∃ file, sampleOS.Open v1.format = .ok file ∧ file.fail = some err) :=
  structToMultipartFormData_unopenable sampleOS (testStruct "/invalid/path/to/file.txt" "Test")
    "file" (.string "/invalid/path/to/file.txt")
    { text := "open /invalid/path/to/file.txt: no such file or directory" }
    (by decide) (Or.inr (Or.inr rfl)) (by decide) rfl

/-! ## The traces of the calls -/

/-- A response comes with exactly one request handed to `Do` and nothing else. -/
theorem getHTTPResponse_ok_trace (lib : Lib) (c : client) (url method : String)
    (data : ReqBody) (contentType : String) (resp : Response)
    (h : (getHTTPResponse lib c url method data contentType).ret = .ok resp) :
    ∃ req, (getHTTPResponse lib c url method data contentType).trace = [.Do req] := by
  unfold getHTTPResponse at h ⊢
  cases hn : NewRequest lib method url data with
  | error err => simp [hn] at h
  | ok req0 =>
    simp only [hn] at h ⊢
    cases hd : c.httpClient (addHeaders c.cfg contentType req0) with
    | error err =>
      simp only [hd] at h
      split at h <;> simp at h
    | ok resp1 => exact ⟨_, rfl⟩

/-- The loop of the encoder adds only file openings to the trace. -/
theorem encodeFields_trace (os : OS) (l : List (String × GoValue)) (w : Buffer)
    (tr : List Event) :
    ∀ e ∈ (encodeFields os l w tr).trace, e ∈ tr ∨ ∃ p, e = .FileOpen p := by
  induction l generalizing w tr with
  | nil =>
    intro e he
    exact Or.inl he
  | cons kv rest ih =>
    obtain ⟨k, v⟩ := kv
    have hstep : ∀ w1 : Buffer, ∀ e ∈ (encodeFields os rest w1
        (tr ++ [.FileOpen (Sprintf "%v" [v.format])])).trace, e ∈ tr ∨ ∃ p, e = .FileOpen p := by
      intro w1 e he
      rcases ih w1 _ e he with h1 | h1
      · rcases List.mem_append.mp h1 with h2 | h2
        · exact Or.inl h2
        · exact Or.inr ⟨_, List.mem_singleton.mp h2⟩
      · exact Or.inr h1
    intro e he
    unfold encodeFields at he
    by_cases hf : isFileEntry k (Sprintf "%v" [v.format]) = true
    · simp only [hf, if_true] at he
      cases ho : os.Open (Sprintf "%v" [v.format]) with
      | error err =>
        simp only [ho] at he
        exact Or.inl he
      | ok file =>
        simp only [ho, createFormFile_copyFrom] at he
        cases hfail : file.fail with
        | some err =>
          simp only [hfail] at he
          rcases List.mem_append.mp he with h2 | h2
          · exact Or.inl h2
          · exact Or.inr ⟨_, List.mem_singleton.mp h2⟩
        | none =>
          simp only [hfail] at he
          exact hstep _ e he
    · simp only [hf] at he
      rw [if_neg (by simp)] at he
      exact ih _ _ e he

/-- The encoder hands no request to `Do`, closes no body and closes no file: its trace
holds file openings only. -/
theorem structToMultipartFormData_trace (os : OS) (v : List StructField) :
    ∀ e ∈ (structToMultipartFormData os v).trace, ∃ p, e = .FileOpen p := by
  intro e he
  have htr : (structToMultipartFormData os v).trace =
      (encodeFields os (os.rangeOrder (mapstructureDecode v))
        (multipartNewWriter os.randomBoundary) []).trace := by
    unfold structToMultipartFormData
    simp only
    split <;> rfl
  rw [htr] at he
  rcases encodeFields_trace os _ _ [] e he with h | h
  · simp at h
  · exact h

/-- C14: on `testStruct` with the fixture as `File`, `structToMultipartFormData` succeeds,
its trace is the opening of the fixture and nothing else, and the fixture's handle is
still open when it returns. -/
theorem structToMultipartFormData_leaves_file_open :
    (structToMultipartFormData sampleOS (testStruct fixturePath "test")).ret.2.2 = none ∧
    (structToMultipartFormData sampleOS (testStruct fixturePath "test")).trace =
      [.FileOpen fixturePath] ∧
    openHandles (structToMultipartFormData sampleOS (testStruct fixturePath "test")).trace [] =
      [fixturePath] := by
  refine ⟨?_, ?_, ?_⟩
  · rfl
  · rfl
  · rfl

/-- C15: when the transport returned a response, the trace of `getRequestResponse` and
the trace of `streamRequestResponse` each hold the closing of the response body exactly
once, as their last event, whatever the status, the body and the sink. -/
theorem response_body_closed_once (lib : Lib) (c : client) (url method : String)
    (data : ReqBody) (contentType : String) (dst : Sink) (resp : Response)
    (hresp : (getHTTPResponse lib c url method data contentType).ret = .ok resp) :
    (getRequestResponse lib c url method data contentType).trace.count .BodyClose = 1 ∧
    (getRequestResponse lib c url method data contentType).trace.getLast? = some .BodyClose ∧
    (streamRequestResponse lib c url method data contentType dst).trace.count .BodyClose = 1 ∧
    (streamRequestResponse lib c url method data contentType dst).trace.getLast? =
      some .BodyClose := by
  obtain ⟨req, htr⟩ := getHTTPResponse_ok_trace lib c url method data contentType resp hresp
  have h1 : (getRequestResponse lib c url method data contentType).trace =
      [.Do req, .BodyClose] := by
    simp only [getRequestResponse, hresp, htr]
    split
    · split <;> rfl
    · rfl
  have h2 : (streamRequestResponse lib c url method data contentType dst).trace =
      [.Do req, .BodyClose] := by
    simp only [streamRequestResponse, hresp, htr]
    split
    · rfl
    · split <;> rfl
  rw [h1, h2]
  simp [List.count_cons]

theorem response_body_closed_once_witness :
    (getRequestResponse sampleLib
      (answering sampleConfig (.ok ⟨502, "502 Bad Gateway", ⟨[], none⟩⟩))
      "https://api.openai.com/v1/models" "GET" .nil contentTypeJSON).trace.count .BodyClose = 1 ∧
    (getRequestResponse sampleLib
      (answering sampleConfig (.ok ⟨502, "502 Bad Gateway", ⟨[], none⟩⟩))
      "https://api.openai.com/v1/models" "GET" .nil contentTypeJSON).trace.getLast? =
        some .BodyClose ∧
    (streamRequestResponse sampleLib
      (answering sampleConfig (.ok ⟨502, "502 Bad Gateway", ⟨[], none⟩⟩))
      "https://api.openai.com/v1/models" "GET" .nil contentTypeJSON
      ⟨[], some (0, ioEOF)⟩).trace.count .BodyClose = 1 ∧
    (streamRequestResponse sampleLib
      (answering sampleConfig (.ok ⟨502, "502 Bad Gateway", ⟨[], none⟩⟩))
      "https://api.openai.com/v1/models" "GET" .nil contentTypeJSON
      ⟨[], some (0, ioEOF)⟩).trace.getLast? = some .BodyClose :=
  response_body_closed_once sampleLib
    (answering sampleConfig (.ok ⟨502, "502 Bad Gateway", ⟨[], none⟩⟩))
    "https://api.openai.com/v1/models" "GET" .nil contentTypeJSON ⟨[], some (0, ioEOF)⟩
    ⟨502, "502 Bad Gateway", ⟨[], none⟩⟩ rfl

/-- C16: the client returned by `New` keeps the `APIKey` and the `OrganizationID` given;
its `RequestTimeout` is thirty seconds (in nanoseconds) when the one given is zero and
the one given otherwise; and its transport is the `http.Client` whose `Timeout` is that
same value. -/
theorem New_config (httpDo : HTTPClient → Request → Except LibError Response) (cfg : Config) :
    (New httpDo cfg).cfg.APIKey = cfg.APIKey ∧
    (New httpDo cfg).cfg.OrganizationID = cfg.OrganizationID ∧
    (New httpDo cfg).cfg.RequestTimeout =
      (if cfg.RequestTimeout = 0 then 30000000000 else cfg.RequestTimeout) ∧
    (New httpDo cfg).httpClient = httpDo { Timeout := (New httpDo cfg).cfg.RequestTimeout } := by
  unfold New
  by_cases h : cfg.RequestTimeout = 0
  · simp [h, defaultRequestTimeout]
  · simp [h]

/-- C17: when the encoding of the params fails with an error, `filesAPI.Create` returns
the zero `File` and that error, `imagesAPI.Edit` and `imagesAPI.CreateVariations` return
a nil slice and that error, and none of them hands a request to `Do`. -/
theorem form_operations_stop_on_encoding_error (lib : Lib) (os : OS) (codec : Codec)
    (c : client) :
    (∀ (file purpose : String) (err : GoError),
      (structToMultipartFormData os (FileParams file purpose)).ret.2.2 = some err →
      (filesAPI.Create lib os codec c file purpose).ret = ({}, some err) ∧
      ∀ req, Event.Do req ∉ (filesAPI.Create lib os codec c file purpose).trace) ∧
    (∀ (image mask prompt : String) (n : Nat) (size responseFormat user : String)
      (err : GoError),
      (structToMultipartFormData os
        (ImageEditParams image mask prompt n size responseFormat user)).ret.2.2 = some err →
      (imagesAPI.Edit lib os codec c image mask prompt n size responseFormat user).ret =
        (none, some err) ∧
      ∀ req, Event.Do req ∉
        (imagesAPI.Edit lib os codec c image mask prompt n size responseFormat user).trace) ∧
    (∀ (image : String) (n : Nat) (size responseFormat user : String) (err : GoError),
      (structToMultipartFormData os
        (ImageVariationParams image n size responseFormat user)).ret.2.2 = some err →
      (imagesAPI.CreateVariations lib os codec c image n size responseFormat user).ret =
        (none, some err) ∧
      ∀ req, Event.Do req ∉
        (imagesAPI.CreateVariations lib os codec c image n size responseFormat user).trace) := by
  have himg : ∀ (url : String) (params : List StructField) (err : GoError),
      (structToMultipartFormData os params).ret.2.2 = some err →
      (imagesAPI.imagesFromFormData lib os codec c url params).ret = (none, some err) ∧
      ∀ req, Event.Do req ∉ (imagesAPI.imagesFromFormData lib os codec c url params).trace := by
    intro url params err h
    rcases henc : (structToMultipartFormData os params).ret with ⟨d, ct, e⟩
    rw [henc] at h
    simp only at h
    subst h
    refine ⟨by simp [imagesAPI.imagesFromFormData, henc], ?_⟩
    intro req hreq
    simp only [imagesAPI.imagesFromFormData, henc] at hreq
    obtain ⟨p, hp⟩ := structToMultipartFormData_trace os params _ hreq
    cases hp
  refine ⟨?_, ?_, ?_⟩
  · intro file purpose err h
    rcases henc : (structToMultipartFormData os (FileParams file purpose)).ret with ⟨d, ct, e⟩
    rw [henc] at h
    simp only at h
    subst h
    refine ⟨by simp [filesAPI.Create, henc], ?_⟩
    intro req hreq
    simp only [filesAPI.Create, henc] at hreq
    obtain ⟨p, hp⟩ := structToMultipartFormData_trace os _ _ hreq
    cases hp
  · intro image mask prompt n size responseFormat user err h
    exact himg _ _ err h
  · intro image n size responseFormat user err h
    exact himg _ _ err h

theorem form_operations_stop_on_encoding_error_witness :
    (filesAPI.Create sampleLib sampleOS sampleCodec (New sampleDo sampleConfig)
      "/invalid/path/to/file.txt" "fine-tune").ret =
      ({}, some (.lib { text := "open /invalid/path/to/file.txt: no such file or directory" })) ∧
    ∀ req, Event.Do req ∉ (filesAPI.Create sampleLib sampleOS sampleCodec
      (New sampleDo sampleConfig) "/invalid/path/to/file.txt" "fine-tune").trace :=
  (form_operations_stop_on_encoding_error sampleLib sampleOS sampleCodec
    (New sampleDo sampleConfig)).1 "/invalid/path/to/file.txt" "fine-tune"
    (.lib { text := "open /invalid/path/to/file.txt: no such file or directory" }) rfl

/-! ## client.go: bodies without an envelope -/

theorem foldRune_plain (c x : Char) (h : foldRune c = x) (hs : x ≠ 's') (hk : x ≠ 'k') :
    c.toLower = x := by
  unfold foldRune at h
  split at h
  · exact absurd h.symm hs
  · split at h
    · exact absurd h.symm hk
    · exact h

/-- A key that folds to `error` is `error` up to the case of its ASCII letters. -/
theorem foldRune_error (l : List Char) (h : l.map foldRune = "error".data) :
    l.map Char.toLower = "error".data := by
  have he : "error".data = ['e', 'r', 'r', 'o', 'r'] := rfl
  rw [he] at h ⊢
  rcases l with _ | ⟨a, _ | ⟨b, _ | ⟨c, _ | ⟨d, _ | ⟨e, _ | ⟨f, l⟩⟩⟩⟩⟩⟩ <;>
    simp only [List.map_cons, List.map_nil, List.cons.injEq, and_true, reduceCtorEq,
      and_false, false_and] at h
  obtain ⟨h1, h2, h3, h4, h5⟩ := h
  simp only [List.map_cons, List.map_nil,
    foldRune_plain a _ h1 (by decide) (by decide),
    foldRune_plain b _ h2 (by decide) (by decide),
    foldRune_plain c _ h3 (by decide) (by decide),
    foldRune_plain d _ h4 (by decide) (by decide),
    foldRune_plain e _ h5 (by decide) (by decide)]

/-- A key that differs from `error` also when letter case is ignored selects no field of
`errResp`. -/
theorem lookupField_error_none (key : String)
    (h : key.data.map Char.toLower ≠ "error".data) : lookupField ["error"] key = none := by
  have hne : ¬ ("error" = key) := by
    intro he
    apply h
    rw [← he]
    decide
  have hfold : "error".data.map foldRune = "error".data := by decide
  have hb1 : ("error" == key) = false := by simpa using hne
  have hb2 : ("error".data.map foldRune == key.data.map foldRune) = false := by
    rw [hfold]
    simpa using fun he : "error".data = key.data.map foldRune =>
      h (foldRune_error key.data he.symm)
  simp only [lookupField, List.find?, hb1, hb2]

/-- Members under keys that select no field leave `errResp` as it was. -/
theorem storeErrRespField_skips (lib : Lib) (fields : List (String × JSON))
    (acc : ErrResp × Option LibError)
    (h : ∀ kv ∈ fields, kv.1.data.map Char.toLower ≠ "error".data) :
    fields.foldl (storeErrRespField lib) acc = acc := by
  induction fields generalizing acc with
  | nil => rfl
  | cons kv rest ih =>
    have hk := lookupField_error_none kv.1 (h kv (List.mem_cons_self _ _))
    have hstep : storeErrRespField lib acc kv = acc := by
      simp [storeErrRespField, hk]
    rw [List.foldl_cons, hstep]
    exact ih acc (fun kv1 h1 => h kv1 (List.mem_cons_of_mem _ h1))

/-- C18, as the claim states it, fails on an object whose only key is `Error` with a
capital letter: the object has no `error` key, yet the decoder matches the key without
regard to letter case and the call returns the message stored under it. -/
theorem getRequestResponse_capital_key :
    (getRequestResponse (scanning capitalBody capitalJSON (by decide))
      (answering sampleConfig (.ok ⟨400, "400 Bad Request", ⟨[capitalBody], none⟩⟩))
      "https://api.openai.com/v1/models" "GET" .nil contentTypeJSON).ret =
      (none, some (.errorsNew "Message: boom | Type:  | Code:  | Param: <nil>")) := by
  decide

/-- C18, amended: a response with status at least 400 whose body is JSON `null` or an
object none of whose keys equals `error` when letter case is ignored (the empty object
among them) makes `getRequestResponse` return no bytes and the error made by
`errors.New` with the text `Message:  | Type:  | Code:  | Param: <nil>`, no decode
error; what is stored is what the envelope with all four fields empty stores. -/
theorem getRequestResponse_no_envelope (lib : Lib) (c : client) (url method : String)
    (data : ReqBody) (contentType : String) (resp : Response) (j : JSON)
    (hresp : (getHTTPResponse lib c url method data contentType).ret = .ok resp)
    (hstatus : resp.StatusCode ≥ 400)
    (hbody : lib.readJSON resp.Body = .ok j)
    (hj : j = .null ∨ ∃ fields, j = .obj fields ∧
      ∀ kv ∈ fields, kv.1.data.map Char.toLower ≠ "error".data) :
    (getRequestResponse lib c url method data contentType).ret =
      (none, some (.errorsNew "Message:  | Type:  | Code:  | Param: <nil>")) ∧
    (GoError.errorsNew "Message:  | Type:  | Code:  | Param: <nil>").Error =
      "Message:  | Type:  | Code:  | Param: <nil>" ∧
    unmarshalErrResp lib j = unmarshalErrResp lib (.obj [("error",
      .obj [("message", .str ""), ("type", .str ""), ("code", .str ""), ("param", .null)])]) := by
  have hempty : unmarshalErrResp lib (.obj [("error",
      .obj [("message", .str ""), ("type", .str ""), ("code", .str ""), ("param", .null)])]) =
      ({}, none) := by
    simp [unmarshalErrResp, storeErrRespField, lookupField, storeErrorFields,
      storeErrorField, errorFieldTags, storeString, firstErr, valueInterface]
  have hstore : unmarshalErrResp lib j = ({}, none) := by
    rcases hj with rfl | ⟨fields, rfl, hkeys⟩
    · rfl
    · simp only [unmarshalErrResp]
      exact storeErrRespField_skips lib fields _ hkeys
  have hmsg : Sprintf errMsgTpl ["", "", "", formatAny lib GoAny.nil] =
      "Message:  | Type:  | Code:  | Param: <nil>" := by
    simp only [formatAny]
    decide
  refine ⟨?_, rfl, by rw [hstore, hempty]⟩
  simp only [getRequestResponse, hresp, hstatus, if_true, decodeErrResp, hbody, hstore]
  simp only [hmsg]

theorem getRequestResponse_no_envelope_witness :
    (getRequestResponse (scanning emptyObjectBody (.obj []) (by decide))
      (answering sampleConfig (.ok ⟨400, "400 Bad Request", ⟨[emptyObjectBody], none⟩⟩))
      "https://api.openai.com/v1/models" "GET" .nil contentTypeJSON).ret =
      (none, some (.errorsNew "Message:  | Type:  | Code:  | Param: <nil>")) ∧
    (GoError.errorsNew "Message:  | Type:  | Code:  | Param: <nil>").Error =
      "Message:  | Type:  | Code:  | Param: <nil>" ∧
    unmarshalErrResp (scanning emptyObjectBody (.obj []) (by decide)) (.obj []) =
      unmarshalErrResp (scanning emptyObjectBody (.obj []) (by decide)) (.obj [("error",
        .obj [("message", .str ""), ("type", .str ""), ("code", .str ""),
          ("param", .null)])]) :=
  getRequestResponse_no_envelope (scanning emptyObjectBody (.obj []) (by decide))
    (answering sampleConfig (.ok ⟨400, "400 Bad Request", ⟨[emptyObjectBody], none⟩⟩))
    "https://api.openai.com/v1/models" "GET" .nil contentTypeJSON
    ⟨400, "400 Bad Request", ⟨[emptyObjectBody], none⟩⟩ (.obj []) rfl (by decide) rfl
    (Or.inr ⟨[], rfl, by simp⟩)

/-! ## utils.go: the flattened record -/

theorem takeWhile_no_comma (l : List Char) (h : l.contains ',' = false) :
    l.takeWhile (fun c => c != ',') = l := by
  induction l with
  | nil => rfl
  | cons c cs ih =>
    simp only [List.contains_cons, Bool.or_eq_false_iff] at h
    have hc : (c != ',') = true := by
      have h1 : (',' == c) = false := h.1
      have h2 : ¬ (',' = c) := by simpa using h1
      simpa using fun he : c = ',' => h2 he.symm
    simp [List.takeWhile_cons, hc, ih h.2]

/-- The key of a field, read off its tag: the name `-` and an empty value under
`omitempty` drop the field, any other field is kept under `keyName`. -/
theorem mapKey_eq (f : StructField) :
    mapKey f =
      if tagName f.Tag = ['-'] then none
      else if saysOmitempty f.Tag && f.Value.isEmptyValue then none
      else some (keyName f) := by
  by_cases hc : f.Tag.data.contains ',' = true
  · simp only [mapKey, hc, if_true, tagName, saysOmitempty, tagOptions, keyName, Bool.true_and]
    by_cases h1 : f.Tag.data.takeWhile (fun c => c != ',') = ['-']
    · simp [h1]
    · simp only [h1, if_false]
      split
      · rfl
      · by_cases h2 : f.Tag.data.takeWhile (fun c => c != ',') = []
        · simp [h2]
        · simp [h2]
  · have hc0 : f.Tag.data.contains ',' = false := Bool.eq_false_iff.mpr hc
    have htw := takeWhile_no_comma f.Tag.data hc0
    simp only [mapKey, hc0, tagName, saysOmitempty, keyName, htw, Bool.false_and]
    by_cases h1 : f.Tag.data = ['-']
    · simp [h1]
    · by_cases h2 : f.Tag.data = []
      · simp [h1, h2]
      · simp [h1, h2]

theorem setMapIndex_keys (k : String) (val : GoValue) (m : List (String × GoValue)) :
    (setMapIndex k val m).map Prod.fst =
      if k ∈ m.map Prod.fst then m.map Prod.fst else m.map Prod.fst ++ [k] := by
  induction m with
  | nil => simp [setMapIndex]
  | cons kv rest ih =>
    obtain ⟨k1, v1⟩ := kv
    by_cases h : k1 = k
    · simp [setMapIndex, h]
    · have h2 : ¬ k = k1 := fun he => h he.symm
      simp only [setMapIndex, h, if_false, List.map_cons, ih, List.mem_cons, h2, false_or]
      split <;> simp

theorem mapstructureDecode_eq_foldl (v : List StructField) :
    mapstructureDecode v = v.foldl flattenStep [] := rfl

theorem flattenStep_keys (m : List (String × GoValue)) (f : StructField) :
    (flattenStep m f).map Prod.fst =
      match mapKey f with
      | some k => if k ∈ m.map Prod.fst then m.map Prod.fst else m.map Prod.fst ++ [k]
      | none => m.map Prod.fst := by
  unfold flattenStep
  cases mapKey f with
  | none => rfl
  | some k => exact setMapIndex_keys k f.Value m

theorem foldl_flattenStep_nodup (v : List StructField) (m : List (String × GoValue))
    (h : (m.map Prod.fst).Nodup) : ((v.foldl flattenStep m).map Prod.fst).Nodup := by
  induction v generalizing m with
  | nil => exact h
  | cons f rest ih =>
    apply ih
    rw [flattenStep_keys]
    cases mapKey f with
    | none => exact h
    | some k =>
      by_cases hk : k ∈ m.map Prod.fst
      · simpa [hk] using h
      · simp only [hk, if_false]
        exact List.nodup_append.mpr ⟨h, List.nodup_singleton k, by
          intro a ha hb
          rw [List.mem_singleton] at hb
          exact hk (hb ▸ ha)⟩

/-- The flattened record has one entry per key. -/
theorem mapstructureDecode_keys_nodup (v : List StructField) :
    ((mapstructureDecode v).map Prod.fst).Nodup :=
  foldl_flattenStep_nodup v [] List.nodup_nil

theorem foldl_flattenStep_keys (v : List StructField) (m : List (String × GoValue))
    (k : String) :
    k ∈ (v.foldl flattenStep m).map Prod.fst ↔
      (k ∈ m.map Prod.fst ∨ ∃ f ∈ v, mapKey f = some k) := by
  induction v generalizing m with
  | nil => simp
  | cons f rest ih =>
    rw [List.foldl_cons, ih, flattenStep_keys]
    cases hf : mapKey f with
    | none =>
      constructor
      · rintro (h | ⟨g, hg, hk⟩)
        · exact Or.inl h
        · exact Or.inr ⟨g, List.mem_cons_of_mem _ hg, hk⟩
      · rintro (h | ⟨g, hg, hk⟩)
        · exact Or.inl h
        · rcases List.mem_cons.mp hg with rfl | hg1
          · rw [hf] at hk
            cases hk
          · exact Or.inr ⟨g, hg1, hk⟩
    | some k1 =>
      have hmem : (k ∈ (if k1 ∈ m.map Prod.fst then m.map Prod.fst
          else m.map Prod.fst ++ [k1])) ↔ (k ∈ m.map Prod.fst ∨ k = k1) := by
        by_cases h1 : k1 ∈ m.map Prod.fst
        · simp only [h1, if_true]
          constructor
          · exact Or.inl
          · rintro (h | rfl)
            · exact h
            · exact h1
        · simp [h1]
      simp only [hmem]
      constructor
      · rintro ((h | rfl) | ⟨g, hg, hk⟩)
        · exact Or.inl h
        · exact Or.inr ⟨f, List.mem_cons_self _ _, hf⟩
        · exact Or.inr ⟨g, List.mem_cons_of_mem _ hg, hk⟩
      · rintro (h | ⟨g, hg, hk⟩)
        · exact Or.inl (Or.inl h)
        · rcases List.mem_cons.mp hg with rfl | hg1
          · rw [hf] at hk
            cases hk
            exact Or.inl (Or.inr rfl)
          · exact Or.inr ⟨g, hg1, hk⟩

/-- The keys of the flattened record are the keys of the fields that are kept. -/
theorem mapstructureDecode_keys (v : List StructField) (k : String) :
    k ∈ (mapstructureDecode v).map Prod.fst ↔ ∃ f ∈ v, mapKey f = some k := by
  rw [mapstructureDecode_eq_foldl, foldl_flattenStep_keys]
  simp

/-- A field that is left out changes nothing: the record flattens as without it. -/
theorem mapstructureDecode_skip (pre post : List StructField) (f : StructField)
    (h : mapKey f = none) :
    mapstructureDecode (pre ++ f :: post) = mapstructureDecode (pre ++ post) := by
  simp only [mapstructureDecode_eq_foldl, List.foldl_append, List.foldl_cons]
  have : flattenStep (List.foldl flattenStep [] pre) f = List.foldl flattenStep [] pre := by
    simp [flattenStep, h]
  rw [this]

/-! ## utils.go: what a successful encoding holds -/

theorem entryPart_name (os : OS) (kv : String × GoValue) (p : Part)
    (h : entryPart os kv = some p) : p.FormName = kv.1 := by
  unfold entryPart at h
  split at h
  · split at h
    · split at h
      · cases h
        rfl
      · cases h
    · cases h
  · cases h
    rfl

/-- The part of an entry depends on the surroundings only through `os.Open`. -/
theorem entryPart_congr (os1 os2 : OS) (h : os1.Open = os2.Open) (kv : String × GoValue) :
    entryPart os1 kv = entryPart os2 kv := by
  simp only [entryPart, h]

/-- The loop succeeds exactly when every entry can be written, and then the writer holds
the parts of the entries in the order visited. -/
theorem encodeFields_success (os : OS) (l : List (String × GoValue)) (w w1 : Buffer)
    (tr : List Event) (h : (encodeFields os l w tr).ret = .ok w1) :
    (∀ kv ∈ l, (entryPart os kv).isSome) ∧
      w1 = { w with parts := w.parts ++ l.filterMap (entryPart os) } := by
  by_cases hall : ∀ kv ∈ l, (entryPart os kv).isSome
  · refine ⟨hall, ?_⟩
    rw [encodeFields_ok os l w tr hall] at h
    cases h
    rfl
  · exfalso
    have hbad : ∃ kv ∈ l, entryPart os kv = none := by
      by_contra hno
      apply hall
      intro kv hkv
      cases he : entryPart os kv with
      | some p => rfl
      | none => exact absurd ⟨kv, hkv, he⟩ hno
    obtain ⟨err, hret, _⟩ := encodeFields_error os l w tr hbad
    rw [hret] at h
    cases h

/-- A successful encoding returns the closed buffer that holds the parts of the entries
of the flattened record, in the order of the loop, and its content type. -/
theorem structToMultipartFormData_success (os : OS) (v : List StructField) (data : Buffer)
    (ct : String) (h : (structToMultipartFormData os v).ret = (some data, ct, none)) :
    (∀ kv ∈ mapstructureDecode v, (entryPart os kv).isSome) ∧
      data.parts = (os.rangeOrder (mapstructureDecode v)).filterMap (entryPart os) ∧
      data.closed = true ∧ data.boundary = os.randomBoundary ∧
      ct = data.FormDataContentType := by
  unfold structToMultipartFormData at h
  simp only at h
  cases hret : (encodeFields os (os.rangeOrder (mapstructureDecode v))
      (multipartNewWriter os.randomBoundary) []).ret with
  | error err =>
    rw [hret] at h
    simp at h
  | ok w1 =>
    rw [hret] at h
    simp only [Prod.mk.injEq, Option.some.injEq, and_true] at h
    obtain ⟨hd, hct⟩ := h
    obtain ⟨hall, hw⟩ := encodeFields_success os _ _ _ _ hret
    subst hw
    subst hd
    refine ⟨?_, ?_, rfl, rfl, hct.symm⟩
    · intro kv hkv
      exact hall kv ((os.rangeOrder_perm _).mem_iff.mpr hkv)
    · simp [Buffer.Close, multipartNewWriter]

/-- The call either fails with a nil buffer and an empty content type, when some entry
cannot be written, or succeeds with the parts of all entries. -/
theorem structToMultipartFormData_cases (os : OS) (v : List StructField) :
    ((∃ kv ∈ mapstructureDecode v, entryPart os kv = none) ∧
      ∃ err, (structToMultipartFormData os v).ret = (none, "", some (.lib err))) ∨
    ((∀ kv ∈ mapstructureDecode v, (entryPart os kv).isSome) ∧
      ∃ data, (structToMultipartFormData os v).ret =
          (some data, data.FormDataContentType, none) ∧
        data.parts = (os.rangeOrder (mapstructureDecode v)).filterMap (entryPart os)) := by
  by_cases hall : ∀ kv ∈ mapstructureDecode v, (entryPart os kv).isSome
  · right
    refine ⟨hall, ?_⟩
    have hall1 : ∀ kv ∈ os.rangeOrder (mapstructureDecode v), (entryPart os kv).isSome :=
      fun kv hkv => hall kv ((os.rangeOrder_perm _).mem_iff.mp hkv)
    refine ⟨Buffer.Close { multipartNewWriter os.randomBoundary with
      parts := (multipartNewWriter os.randomBoundary).parts ++
        (os.rangeOrder (mapstructureDecode v)).filterMap (entryPart os) }, ?_, ?_⟩
    · simp only [structToMultipartFormData, encodeFields_ok os _ _ _ hall1]
    · simp [Buffer.Close, multipartNewWriter]
  · left
    have hbad : ∃ kv ∈ mapstructureDecode v, entryPart os kv = none := by
      by_contra hno
      apply hall
      intro kv hkv
      cases he : entryPart os kv with
      | some p => rfl
      | none => exact absurd ⟨kv, hkv, he⟩ hno
    refine ⟨hbad, ?_⟩
    obtain ⟨kv, hkv, hnone⟩ := hbad
    obtain ⟨err, hret, _⟩ := encodeFields_error os (os.rangeOrder (mapstructureDecode v))
      (multipartNewWriter os.randomBoundary) []
      ⟨kv, (os.rangeOrder_perm _).mem_iff.mpr hkv, hnone⟩
    exact ⟨err, by simp only [structToMultipartFormData, hret]⟩

theorem filterMap_filter_absent (os : OS) (l : List (String × GoValue)) (k : String)
    (h : k ∉ l.map Prod.fst) :
    (l.filterMap (entryPart os)).filter (fun q => q.FormName == k) = [] := by
  rw [List.filter_eq_nil_iff]
  intro q hq
  obtain ⟨kv, hkv, he⟩ := List.mem_filterMap.mp hq
  have hn := entryPart_name os kv q he
  intro hb
  apply h
  have : q.FormName = k := by simpa using hb
  rw [← this, hn]
  exact List.mem_map_of_mem Prod.fst hkv

/-- Among the parts of entries with pairwise different keys, the parts named `k` are the
part of the entry under `k` alone. -/
theorem filterMap_filter_single (os : OS) (l : List (String × GoValue))
    (hnd : (l.map Prod.fst).Nodup) (k : String) (val : GoValue) (p : Part)
    (hmem : (k, val) ∈ l) (hp : entryPart os (k, val) = some p) :
    (l.filterMap (entryPart os)).filter (fun q => q.FormName == k) = [p] := by
  induction l with
  | nil => simp at hmem
  | cons kv rest ih =>
    simp only [List.map_cons, List.nodup_cons] at hnd
    by_cases hk : kv.1 = k
    · have hhead : kv = (k, val) := by
        rcases List.mem_cons.mp hmem with h1 | h1
        · exact h1.symm
        · exfalso
          apply hnd.1
          rw [hk]
          exact List.mem_map_of_mem Prod.fst h1
      subst hhead
      have hname : p.FormName = k := entryPart_name os _ p hp
      simp only [List.filterMap_cons, hp, List.filter_cons, hname, beq_self_eq_true, if_true]
      rw [filterMap_filter_absent os rest k hnd.1]
    · have hin : (k, val) ∈ rest := by
        rcases List.mem_cons.mp hmem with h1 | h1
        · exfalso
          apply hk
          rw [← h1]
        · exact h1
      cases he : entryPart os kv with
      | none =>
        simp only [List.filterMap_cons, he]
        exact ih hnd.2 hin
      | some q =>
        have hq : q.FormName = kv.1 := entryPart_name os kv q he
        have hqk : (q.FormName == k) = false := by
          rw [hq]
          simpa using hk
        simp only [List.filterMap_cons, he, List.filter_cons, hqk]
        exact ih hnd.2 hin

theorem map_eq_filterMap_some {α β : Type} (f : α → Option β) (l : List α)
    (h : ∀ a ∈ l, (f a).isSome) : l.map f = (l.filterMap f).map some := by
  induction l with
  | nil => rfl
  | cons a rest ih =>
    have ha := h a (List.mem_cons_self _ _)
    cases hf : f a with
    | none => simp [hf] at ha
    | some b =>
      simp only [List.map_cons, List.filterMap_cons, hf]
      rw [ih (fun x hx => h x (List.mem_cons_of_mem _ hx))]

/-- The bytes of a string are its UTF-8 encoding. -/
theorem utf8_eq (s : String) : utf8 s = s.toUTF8.data.toList := rfl

/-- The `%v` text of a field value: a string is its own text, an unsigned integer its
decimal numeral. -/
theorem format_eq (val : GoValue) (text : String)
    (h : val = .string text ∨ ∃ n, val = .uint n ∧ text = Nat.repr n) : val.format = text := by
  rcases h with rfl | ⟨n, rfl, rfl⟩
  · rfl
  · rfl

/-- C11: when `structToMultipartFormData` succeeds, the parts of the body are the parts
of the entries of the flattened record, one for each entry in the order of the loop and
no others.  With the `%v` text of an entry's value (the string itself, the decimal
numeral of an unsigned integer): when the entry's name is none of image, mask, file, or
the text is empty, the parts named after it are exactly one part, without filename and
content type, whose content is the UTF-8 bytes of the text; when its name is one of the
three and the text is not empty, the parts named after it are exactly one part, with the
base name of the text as filename and the content of the file opened under the text. -/
theorem structToMultipartFormData_one_part_per_field (os : OS) (v : List StructField)
    (data : Buffer) (ct : String)
    (h : (structToMultipartFormData os v).ret = (some data, ct, none)) :
    (os.rangeOrder (mapstructureDecode v)).map (entryPart os) = data.parts.map some ∧
    data.parts.length = (mapstructureDecode v).length ∧
    (∀ k val text, (k, val) ∈ mapstructureDecode v →
      (val = .string text ∨ ∃ n, val = .uint n ∧ text = Nat.repr n) →
      ((k ≠ "image" ∧ k ≠ "mask" ∧ k ≠ "file") ∨ text = "") →
      data.parts.filter (fun q => q.FormName == k) =
        [{ FormName := k, FileName := none, ContentType := none,
           Content := text.toUTF8.data.toList }]) ∧
    (∀ k val text, (k, val) ∈ mapstructureDecode v →
      (val = .string text ∨ ∃ n, val = .uint n ∧ text = Nat.repr n) →
      (k = "image" ∨ k = "mask" ∨ k = "file") → text ≠ "" →
      ∃ file, os.Open text = .ok file ∧ file.fail = none ∧
        data.parts.filter (fun q => q.FormName == k) =
          [{ FormName := k, FileName := some (pathBase text),
             ContentType := some "application/octet-stream", Content := file.bytes }]) := by
  obtain ⟨hall, hparts, _, _, _⟩ := structToMultipartFormData_success os v data ct h
  have hperm := os.rangeOrder_perm (mapstructureDecode v)
  have hall1 : ∀ kv ∈ os.rangeOrder (mapstructureDecode v), (entryPart os kv).isSome :=
    fun kv hkv => hall kv (hperm.mem_iff.mp hkv)
  have hnd : ((os.rangeOrder (mapstructureDecode v)).map Prod.fst).Nodup :=
    ((hperm.map Prod.fst).nodup_iff).mpr (mapstructureDecode_keys_nodup v)
  refine ⟨?_, ?_, ?_, ?_⟩
  · rw [hparts]
    exact map_eq_filterMap_some _ _ hall1
  · have hlen : (data.parts.map some).length =
        ((os.rangeOrder (mapstructureDecode v)).map (entryPart os)).length := by
      rw [hparts, ← map_eq_filterMap_some _ _ hall1]
    simpa [hperm.length_eq] using hlen
  · intro k val text hmem hval hplain
    have hfmt := format_eq val text hval
    have hfe : isFileEntry k val.format = false := by
      rw [hfmt]
      rcases hplain with ⟨h1, h2, h3⟩ | rfl
      · simp [isFileEntry, h1, h2, h3]
      · simp [isFileEntry]
    rw [hparts, ← utf8_eq, ← hfmt]
    exact filterMap_filter_single os _ hnd k val _ (hperm.mem_iff.mpr hmem)
      (by simp [entryPart, hfe])
  · intro k val text hmem hval hname htext
    have hfmt := format_eq val text hval
    have hfe : isFileEntry k val.format = true := by
      rw [hfmt]
      rcases hname with rfl | rfl | rfl <;> simp [isFileEntry, htext]
    have hsome := hall (k, val) hmem
    cases ho : os.Open val.format with
    | error err => simp [entryPart, hfe, ho] at hsome
    | ok file =>
      have hfail : file.fail = none := by
        by_contra hne
        simp [entryPart, hfe, ho, hne] at hsome
      refine ⟨file, by rw [← hfmt, ho], hfail, ?_⟩
      rw [hparts, ← hfmt]
      exact filterMap_filter_single os _ hnd k val _ (hperm.mem_iff.mpr hmem)
        (by simp [entryPart, hfe, ho, hfail])

theorem structToMultipartFormData_one_part_per_field_witness :
    (Buffer.mk "5f2d9c"
      [{ FormName := "image", FileName := some "test-file.jsonl",
         ContentType := some "application/octet-stream", Content := fixtureBytes },
       { FormName := "prompt", FileName := none, ContentType := none,
         Content := [97, 32, 99, 97, 116] },
       { FormName := "n", FileName := none, ContentType := none, Content := [50] }]
      true).parts.filter (fun q => q.FormName == "n") =
      [{ FormName := "n", FileName := none, ContentType := none, Content := [50] }] :=
  (structToMultipartFormData_one_part_per_field sampleOS
    (ImageEditParams fixturePath "" "a cat" 2 "" "" "")
    (Buffer.mk "5f2d9c"
      [{ FormName := "image", FileName := some "test-file.jsonl",
         ContentType := some "application/octet-stream", Content := fixtureBytes },
       { FormName := "prompt", FileName := none, ContentType := none,
         Content := [97, 32, 99, 97, 116] },
       { FormName := "n", FileName := none, ContentType := none, Content := [50] }]
      true)
    "multipart/form-data; boundary=5f2d9c" rfl).2.2.1 "n" (.uint 2) "2" (by decide)
    (Or.inr ⟨2, rfl, rfl⟩) (Or.inl (by decide))

/-- C13: two runs of `structToMultipartFormData` on the same record and the same files,
with any two orders of the loop and any two boundaries, either both fail with a nil
buffer and an empty content type, or both succeed and the parts of one body are the
parts of the other in some order. -/
theorem structToMultipartFormData_order_independent (os1 os2 : OS) (v : List StructField)
    (hopen : os1.Open = os2.Open) :
    (∃ e1 e2, (structToMultipartFormData os1 v).ret = (none, "", some e1) ∧
      (structToMultipartFormData os2 v).ret = (none, "", some e2)) ∨
    (∃ d1 d2, (structToMultipartFormData os1 v).ret =
        (some d1, d1.FormDataContentType, none) ∧
      (structToMultipartFormData os2 v).ret = (some d2, d2.FormDataContentType, none) ∧
      d1.parts.Perm d2.parts) := by
  have hcongr : entryPart os1 = entryPart os2 := funext (entryPart_congr os1 os2 hopen)
  rcases structToMultipartFormData_cases os1 v with ⟨hbad, e1, h1⟩ | ⟨hall, d1, h1, hp1⟩
  · left
    rcases structToMultipartFormData_cases os2 v with ⟨_, e2, h2⟩ | ⟨hall2, _⟩
    · exact ⟨_, _, h1, h2⟩
    · exfalso
      obtain ⟨kv, hkv, hnone⟩ := hbad
      have := hall2 kv hkv
      rw [← hcongr, hnone] at this
      simp at this
  · right
    rcases structToMultipartFormData_cases os2 v with ⟨hbad, _⟩ | ⟨_, d2, h2, hp2⟩
    · exfalso
      obtain ⟨kv, hkv, hnone⟩ := hbad
      have := hall kv hkv
      rw [hcongr, hnone] at this
      simp at this
    · refine ⟨d1, d2, h1, h2, ?_⟩
      rw [hp1, hp2, hcongr]
      exact ((os1.rangeOrder_perm _).trans (os2.rangeOrder_perm _).symm).filterMap _

theorem structToMultipartFormData_order_independent_witness :
    (∃ e1 e2, (structToMultipartFormData sampleOS (testStruct fixturePath "test")).ret =
        (none, "", some e1) ∧
      (structToMultipartFormData sampleOSReversed (testStruct fixturePath "test")).ret =
        (none, "", some e2)) ∨
    (∃ d1 d2, (structToMultipartFormData sampleOS (testStruct fixturePath "test")).ret =
        (some d1, d1.FormDataContentType, none) ∧
      (structToMultipartFormData sampleOSReversed (testStruct fixturePath "test")).ret =
        (some d2, d2.FormDataContentType, none) ∧
      d1.parts.Perm d2.parts) :=
  structToMultipartFormData_order_independent sampleOS sampleOSReversed
    (testStruct fixturePath "test") rfl

/-! ## utils.go: the omission rule -/

/-- The key of a field with a given tag, once the tag has been read. -/
theorem mapKey_of_tag (name tag : String) (val : GoValue) (key : String) (om : Bool)
    (h1 : tagName tag ≠ ['-']) (h2 : saysOmitempty tag = om)
    (h3 : (if tagName tag = [] then name else String.mk (tagName tag)) = key) :
    mapKey ⟨name, tag, val⟩ = if om && val.isEmptyValue then none else some key := by
  rw [mapKey_eq]
  simp only [h1, if_false, h2, keyName, h3]

/-- A part of a successful encoding is named after a field that is kept. -/
theorem part_name_origin (os : OS) (v : List StructField) (data : Buffer) (ct : String)
    (h : (structToMultipartFormData os v).ret = (some data, ct, none)) (p : Part)
    (hp : p ∈ data.parts) : ∃ f ∈ v, mapKey f = some p.FormName := by
  obtain ⟨_, hparts, _⟩ := structToMultipartFormData_success os v data ct h
  rw [hparts] at hp
  obtain ⟨kv, hkv, he⟩ := List.mem_filterMap.mp hp
  have hname := entryPart_name os kv p he
  have hmem := (os.rangeOrder_perm _).mem_iff.mp hkv
  rw [hname]
  exact (mapstructureDecode_keys v kv.1).mp (List.mem_map_of_mem Prod.fst hmem)

/-- A field that is kept has a part under its key in every successful encoding. -/
theorem kept_field_has_part (os : OS) (v : List StructField) (data : Buffer) (ct : String)
    (h : (structToMultipartFormData os v).ret = (some data, ct, none)) (f : StructField)
    (k : String) (hf : f ∈ v) (hk : mapKey f = some k) :
    ∃ p ∈ data.parts, p.FormName = k := by
  obtain ⟨hall, hparts, _⟩ := structToMultipartFormData_success os v data ct h
  have hkey : k ∈ (mapstructureDecode v).map Prod.fst :=
    (mapstructureDecode_keys v k).mpr ⟨f, hf, hk⟩
  obtain ⟨kv, hkv, hfst⟩ := List.mem_map.mp hkey
  have hsome := hall kv hkv
  cases he : entryPart os kv with
  | none => simp [he] at hsome
  | some p =>
    refine ⟨p, ?_, ?_⟩
    · rw [hparts]
      exact List.mem_filterMap.mpr ⟨kv, (os.rangeOrder_perm _).mem_iff.mpr hkv, he⟩
    · rw [entryPart_name os kv p he, hfst]

theorem mapstructureDecode_FileParams (file purpose : String) :
    mapstructureDecode (FileParams file purpose) =
      [("file", .string file), ("purpose", .string purpose)] := by
  have h1 : ∀ val, mapKey ⟨"File", "file", val⟩ = some "file" := fun val => by
    simpa using mapKey_of_tag "File" "file" val "file" false (by decide) (by decide) (by decide)
  have h2 : ∀ val, mapKey ⟨"Purpose", "purpose", val⟩ = some "purpose" := fun val => by
    simpa using mapKey_of_tag "Purpose" "purpose" val "purpose" false (by decide) (by decide)
      (by decide)
  simp [mapstructureDecode_eq_foldl, FileParams, flattenStep, h1, h2, setMapIndex]

/-- The keys under which the fields of `ImageEditParams` with an empty `Mask` are kept. -/
theorem mapKey_ImageEditParams_no_mask (image prompt : String) (n : Nat)
    (size responseFormat user : String) (f : StructField)
    (hf : f ∈ ImageEditParams image "" prompt n size responseFormat user) :
    mapKey f ≠ some "mask" := by
  simp only [ImageEditParams, List.mem_cons, List.mem_singleton, List.not_mem_nil,
    or_false] at hf
  rcases hf with rfl | rfl | rfl | rfl | rfl | rfl | rfl
  · rw [mapKey_of_tag "Image" "image" _ "image" false (by decide) (by decide) (by decide)]
    simp
  · rw [mapKey_of_tag "Mask" "mask,omitempty" _ "mask" true (by decide) (by decide) (by decide)]
    simp [GoValue.isEmptyValue]
  · rw [mapKey_of_tag "Prompt" "prompt" _ "prompt" false (by decide) (by decide) (by decide)]
    simp
  · rw [mapKey_of_tag "N" "n,omitempty" _ "n" true (by decide) (by decide) (by decide)]
    split <;> simp
  · rw [mapKey_of_tag "Size" "size,omitempty" _ "size" true (by decide) (by decide) (by decide)]
    split <;> simp
  · rw [mapKey_of_tag "ResponseFormat" "response_format,omitempty" _ "response_format" true
      (by decide) (by decide) (by decide)]
    split <;> simp
  · rw [mapKey_of_tag "User" "user,omitempty" _ "user" true (by decide) (by decide) (by decide)]
    split <;> simp

/-- C12, as the claim states it, fails on `FileParams` with a `File` that cannot be
opened: the field `Purpose` is tagged without `omitempty`, yet the call returns a nil
buffer, so no `purpose` part is produced. -/
theorem structToMultipartFormData_no_purpose_part :
    (structToMultipartFormData sampleOS
      (FileParams "/invalid/path/to/file.txt" "fine-tune")).ret =
      (none, "", some (.lib
        { text := "open /invalid/path/to/file.txt: no such file or directory" })) := by
  rfl

/-- C12, amended.  A field whose tag says `omitempty` and whose value is empty is left
out: the record flattens, and is encoded, as the record without the field.  A field
whose tag does not say `omitempty` and names a key other than `-` is kept under the name
in its tag (its Go name when the tag names none) even when its value is empty: that key
is in the flattened record, and every successful encoding holds a part under it.
`ImageEditParams` with an empty `Mask` gives no part named `mask` in any encoding, and
`FileParams` gives a `purpose` part with the bytes of `Purpose` in every successful
encoding. -/
theorem omitempty_rule :
    (∀ f : StructField, saysOmitempty f.Tag = true → f.Value.isEmptyValue = true →
      mapKey f = none ∧
      ∀ (pre post : List StructField),
        mapstructureDecode (pre ++ f :: post) = mapstructureDecode (pre ++ post) ∧
        ∀ os : OS, (structToMultipartFormData os (pre ++ f :: post)).ret =
          (structToMultipartFormData os (pre ++ post)).ret) ∧
    (∀ (v : List StructField) (f : StructField), f ∈ v → saysOmitempty f.Tag = false →
      tagName f.Tag ≠ ['-'] →
      mapKey f = some (keyName f) ∧
      keyName f ∈ (mapstructureDecode v).map Prod.fst ∧
      ∀ (os : OS) (data : Buffer) (ct : String),
        (structToMultipartFormData os v).ret = (some data, ct, none) →
        ∃ p ∈ data.parts, p.FormName = keyName f) ∧
    (∀ (os : OS) (image prompt : String) (n : Nat) (size responseFormat user : String)
      (data : Buffer) (ct : String),
      (structToMultipartFormData os
        (ImageEditParams image "" prompt n size responseFormat user)).ret =
        (some data, ct, none) →
      ∀ p ∈ data.parts, p.FormName ≠ "mask") ∧
    (∀ (os : OS) (file purpose : String) (data : Buffer) (ct : String),
      (structToMultipartFormData os (FileParams file purpose)).ret = (some data, ct, none) →
      { FormName := "purpose", FileName := none, ContentType := none,
        Content := utf8 purpose } ∈ data.parts) := by
  refine ⟨?_, ?_, ?_, ?_⟩
  · intro f hom hempty
    have hnone : mapKey f = none := by
      rw [mapKey_eq]
      simp [hom, hempty]
    refine ⟨hnone, fun pre post => ⟨mapstructureDecode_skip pre post f hnone, fun os => ?_⟩⟩
    simp only [structToMultipartFormData, mapstructureDecode_skip pre post f hnone]
  · intro v f hf hom hname
    have hkey : mapKey f = some (keyName f) := by
      rw [mapKey_eq]
      simp [hom, hname]
    refine ⟨hkey, (mapstructureDecode_keys v _).mpr ⟨f, hf, hkey⟩, ?_⟩
    intro os data ct h
    exact kept_field_has_part os v data ct h f _ hf hkey
  · intro os image prompt n size responseFormat user data ct h p hp hmask
    obtain ⟨f, hf, hk⟩ := part_name_origin os _ data ct h p hp
    rw [hmask] at hk
    exact mapKey_ImageEditParams_no_mask image prompt n size responseFormat user f hf hk
  · intro os file purpose data ct h
    obtain ⟨_, hparts, _⟩ := structToMultipartFormData_success os _ data ct h
    rw [hparts, mapstructureDecode_FileParams]
    refine List.mem_filterMap.mpr ⟨("purpose", .string purpose), ?_, ?_⟩
    · apply (os.rangeOrder_perm _).mem_iff.mpr
      simp
    · simp [entryPart, isFileEntry, GoValue.format]

theorem omitempty_rule_witness :
    (∀ p ∈ (Buffer.mk "5f2d9c"
        [{ FormName := "image", FileName := some "test-file.jsonl",
           ContentType := some "application/octet-stream", Content := fixtureBytes },
         { FormName := "prompt", FileName := none, ContentType := none,
           Content := utf8 "a prompt" }] true).parts, p.FormName ≠ "mask") ∧
    Part.mk "purpose" none none (utf8 "") ∈ (Buffer.mk "5f2d9c"
        [{ FormName := "file", FileName := some "test-file.jsonl",
           ContentType := some "application/octet-stream", Content := fixtureBytes },
         { FormName := "purpose", FileName := none, ContentType := none,
           Content := utf8 "" }] true).parts :=
  ⟨omitempty_rule.2.2.1 sampleOS fixturePath "a prompt" 0 "" "" "" _ _ rfl,
   omitempty_rule.2.2.2 sampleOS fixturePath "" _ _ rfl⟩

end Gopenai
